import Mathlib

/-!
# Spin & Solve: phrase reveal, wheel outcome and round rules

A shallow embedding of the core of the game: `PhraseHandler` (the reveal mask),
`Wheel` (segment resolution) and `GameController` (timer, gems, hints, guesses).

Conventions of the embedding.

* `QString` is a list of characters. `QChar::toUpper`, `QChar::isLetter` and
  `QString::toUpper` belong to the Qt library, not to the repository: they are the
  parameters `QtText`, and what depends on them is stated for every `QtText`.
* C++ `int` is `Int`; none of the values below leaves the 32-bit range.
* `double` angles are rationals: every angle that occurs for an integer rotation
  is a multiple of one half, which `double` represents exactly.
* A slot of the controller returns the new state together with the dialogs it
  raised (`Event`); the answer to a dialog is an argument of the slot.
* Widgets (labels, style sheets, the list of open dialogs) are not part of the state.
-/

namespace SpinSolve

/-! ## Qt text primitives -/

/-- A `QString`, as the list of its characters. -/
abbrev QString := List Char

/-- The text primitives of the Qt library that the game calls. Qt is not part of the
repository, so they are parameters: every definition and theorem that depends on them
is stated for an arbitrary `QtText`, hence for the functions of Qt. -/
class QtText where
  /-- The method `QChar::toUpper()`. -/
  toUpper : Char → Char
  /-- The method `QChar::isLetter()`. -/
  isLetter : Char → Bool
  /-- The method `QString::toUpper()`. -/
  strToUpper : QString → QString

/-- The method `QChar::toUpper()`. -/
def QChar.toUpper [QtText] (c : Char) : Char := QtText.toUpper c

/-- The method `QChar::isLetter()`. -/
def QChar.isLetter [QtText] (c : Char) : Bool := QtText.isLetter c

/-- The method `QString::toUpper()`. -/
def QString.toUpper [QtText] (s : QString) : QString := QtText.strToUpper s

/-- The values of the Qt primitives on the characters that the examples of this file use:
ASCII, where `a`..`z` are upper-cased to `A`..`Z` and the letters are `A`..`Z` and `a`..`z`,
and the Greek characters U+0345 (combining ypogegrammeni: a mark, not a letter, with upper
case U+0399) and U+0399 (capital iota: a letter, its own upper case). It serves the closed
examples only; no statement with a `QtText` parameter refers to it. -/
instance (priority := low) sampleText : QtText where
  toUpper c := if c = Char.ofNat 837 then Char.ofNat 921 else c.toUpper
  isLetter c := c.isAlpha || c == Char.ofNat 921
  strToUpper s := s.map (fun c => if c = Char.ofNat 837 then Char.ofNat 921 else c.toUpper)

/-- `QString::contains(sub)`: `sub` occurs as a contiguous block of `s`. -/
def QString.contains (s sub : QString) : Bool := s.tails.any (fun t => sub.isPrefixOf t)

/-- `s.split(" ")[0]`: the text before the first blank. -/
def QString.splitFirst (s : QString) : QString := s.takeWhile (fun c => c != ' ')

/-- Value of a non-empty run of decimal digits. -/
def QString.digits : QString → Option Nat
  | [] => none
  | cs => if cs.all Char.isDigit then some (cs.foldl (fun n c => 10 * n + (c.toNat - 48)) 0) else none

/-- `QString::toInt()`: optional sign and decimal digits; `0` when the text is not a
number or does not fit an `int`. -/
def QString.toInt (s : QString) : Int :=
  let v : Option Int :=
    match s with
    | '-' :: ds => (QString.digits ds).map (fun n => - (n : Int))
    | '+' :: ds => (QString.digits ds).map (fun n => (n : Int))
    | ds => (QString.digits ds).map (fun n => (n : Int))
  match v with
  | some n => if -2147483648 ≤ n ∧ n ≤ 2147483647 then n else 0
  | none => 0

/-! ## PhraseHandler -/

/-- The members of `PhraseHandler`: the secret phrase and the reveal mask. -/
structure PhraseHandler where
  originalPhrase : QString
  currentLetters : QString
deriving DecidableEq, Repr

namespace PhraseHandler

/-- Constructor `PhraseHandler::PhraseHandler(phrase)`: one blank per blank and one
underscore per other character, appended from left to right. -/
def new (phrase : QString) : PhraseHandler :=
  { originalPhrase := phrase
    currentLetters :=
      (List.range phrase.length).foldl
        (fun cur i => if phrase.getD i ' ' = ' ' then cur ++ [' '] else cur ++ ['_']) [] }

/-- One iteration of the loop of `guessLetter` at index `i`; `letter` is already upper case. -/
def guessStep [QtText] (letter : Char) (st : PhraseHandler × Bool) (i : Nat) : PhraseHandler × Bool :=
  if QChar.toUpper (st.1.originalPhrase.getD i ' ') = letter then
    ({ st.1 with currentLetters := st.1.currentLetters.set i (st.1.originalPhrase.getD i ' ') }, true)
  else st

/-- The method `PhraseHandler::guessLetter(letter)`: the handler after the call and the
returned `found`. -/
def guessLetter [QtText] (h : PhraseHandler) (letter : Char) : PhraseHandler × Bool :=
  (List.range h.originalPhrase.length).foldl (guessStep (QChar.toUpper letter)) (h, false)

/-- The method `PhraseHandler::revealPhrase()`. -/
def revealPhrase (h : PhraseHandler) : PhraseHandler :=
  { h with currentLetters := h.originalPhrase }

/-- The method `PhraseHandler::getDisplayedPhrase()`. -/
def getDisplayedPhrase (h : PhraseHandler) : QString :=
  (List.range h.currentLetters.length).foldl
    (fun spaced i =>
      if h.currentLetters.getD i ' ' = ' ' then spaced ++ [' ', ' ', ' ']
      else spaced ++ [h.currentLetters.getD i ' ', ' ', ' ']) []

/-- The method `PhraseHandler::isComplete()`: no index holds a non-blank phrase character
under an underscore. -/
def isComplete (h : PhraseHandler) : Bool :=
  (List.range h.currentLetters.length).all
    (fun i => !(h.originalPhrase.getD i ' ' != ' ' && h.currentLetters.getD i ' ' == '_'))

end PhraseHandler

/-- A call made on a `PhraseHandler` after its construction. -/
inductive PhraseOp where
  | guess (letter : Char)
  | reveal
deriving DecidableEq, Repr

/-- The handler after one call. -/
def PhraseOp.apply [QtText] (h : PhraseHandler) : PhraseOp → PhraseHandler
  | .guess l => (h.guessLetter l).1
  | .reveal => h.revealPhrase

/-- The handler after a sequence of calls, first call first. -/
def applyOps [QtText] (h : PhraseHandler) (ops : List PhraseOp) : PhraseHandler :=
  ops.foldl PhraseOp.apply h

/-- The letters passed to `guessLetter` in a sequence of calls. -/
def guessedIn (ops : List PhraseOp) : List Char :=
  ops.filterMap (fun op => match op with | .guess l => some l | .reveal => none)

/-- Whether `revealPhrase` occurs in a sequence of calls. -/
def revealedIn (ops : List PhraseOp) : Bool := ops.contains PhraseOp.reveal

/-- What a position holding the phrase character `c` shows after the calls `ops`. -/
def maskChar [QtText] (ops : List PhraseOp) (c : Char) : Char :=
  if c = ' ' then ' '
  else if revealedIn ops || (guessedIn ops).any (fun l => QChar.toUpper c = QChar.toUpper l) then c
  else '_'

/-! ## Wheel -/

/-- Modelled from the spec: `numSegments`, declared in the header `Wheel.h`, which is not
among the sources; the wheel has 8 segments. -/
def numSegments : Int := 8

/-- Modelled from the spec: `segmentAngle`, declared in the header `Wheel.h`, which is not
among the sources; each of the 8 segments is 45 degrees wide. -/
def segmentAngle : ℚ := 45

/-- Conversion `static_cast<int>`: rounding toward zero. -/
def truncToInt (q : ℚ) : Int := if 0 ≤ q then ⌊q⌋ else ⌈q⌉

/-- The C function `fmod(x, y)`: `x` minus `y` times the quotient rounded toward zero. -/
def fmod (x y : ℚ) : ℚ := x - y * (truncToInt (x / y) : ℚ)

/-- The members of `Wheel` that decide the outcome of a spin. -/
structure Wheel where
  isSpinning : Bool
  currentRotation : ℚ
  endAngle : ℚ

namespace Wheel

/-- The method `Wheel::calculateSegment(angle)`. -/
def calculateSegment (angle : ℚ) : Int :=
  let arrowOffset : ℚ := 45 / 2
  let adjusted := fmod (angle + arrowOffset) 360
  let index := truncToInt (adjusted / segmentAngle)
  numSegments - 1 - index

/-- The method `Wheel::spinWheel()`; `randomAngle` is the value drawn by `bounded(360)`. -/
def spinWheel (w : Wheel) (randomAngle : Nat) : Wheel :=
  if w.isSpinning then w
  else
    let fullRotations : ℚ := 6
    { w with isSpinning := true, endAngle := w.currentRotation + 360 * fullRotations + randomAngle }

/-- The slot `Wheel::handleAnimationEnd()`: the wheel afterwards and the index emitted with
`landedSegment`. -/
def handleAnimationEnd (w : Wheel) : Wheel × Int :=
  let w1 := { w with currentRotation := fmod w.endAngle 360, isSpinning := false }
  (w1, calculateSegment w1.currentRotation)

/-- The index emitted by a full spin started at rest with the random offset `randomAngle`. -/
def landed (w : Wheel) (randomAngle : Nat) : Int :=
  (handleAnimationEnd (spinWheel w randomAngle)).2

end Wheel

/-- The reward tags of the `landedSegment` handler in `GameController::setUpWheel`. -/
def segments : List QString :=
  ["2 gems".toList, "-5 seconds".toList, "3 gems".toList, "Free Hint".toList,
   "1 gem".toList, "-10 seconds".toList, "2 gems".toList, "4 gems".toList]

/-! ## PlayerGems and Phrase -/

/-- Modelled from the spec: the class `PlayerGems` (its files are not among the sources);
a gem balance. -/
structure PlayerGems where
  gems : Int
deriving DecidableEq, Repr

namespace PlayerGems

/-- Modelled from the spec: `PlayerGems::getGems`, the current balance. -/
def getGems (p : PlayerGems) : Int := p.gems

/-- Modelled from the spec: `PlayerGems::addGems`, which credits the balance unconditionally. -/
def addGems (p : PlayerGems) (n : Int) : PlayerGems := { gems := p.gems + n }

/-- Modelled from the spec: `PlayerGems::spendGems`; if the balance is at least `n` it is
debited and the call returns true, otherwise the balance is unchanged and it returns false. -/
def spendGems (p : PlayerGems) (n : Int) : PlayerGems × Bool :=
  if p.gems ≥ n then ({ gems := p.gems - n }, true) else (p, false)

/-- Modelled from the spec: `PlayerGems::resetGems`, which sets the balance to a value. -/
def resetGems (_p : PlayerGems) (value : Int) : PlayerGems := { gems := value }

end PlayerGems

/-- Modelled from the spec: the record `Phrase` returned by `PhraseLibrary::getRandomPhrase`
(the library is not among the sources): a text, a category and an ordered list of hints. -/
structure Phrase where
  text : QString
  category : String
  hints : List String
deriving DecidableEq, Repr

/-! ## GameController -/

/-- A dialog raised by a slot of the controller. -/
inductive Event where
  /-- The message box of `showWarningAndRetry(title, text, retry, retryDialog)`; `retry`
  tells whether the input dialog is asked again once the box is closed. -/
  | warning (title text : String) (retry : Bool)
  /-- A `QMessageBox::question` with buttons Yes and No. -/
  | question (title text : String)
  /-- The input dialog "Guess a Letter". -/
  | letterDialog
  /-- The input dialog "Buy a Vowel". -/
  | vowelDialog
  /-- The box "You Won!" of `solvePhrase`. -/
  | wonDialog
deriving DecidableEq, Repr

/-- The members of `GameController` that carry the state of a round. `timerActive` stands
for `gameTimer->isActive()`. -/
structure GameController where
  difficulty : Int
  phraseHandler : PhraseHandler
  displayedPhrase : QString
  guessedLetters : List Char
  remainingTime : Int
  playerGems : PlayerGems
  freeHintsCount : Int
  currentHintIndex : Int
  hintsForCurrentPhrase : List String
  gameActive : Bool
  letterDialogOpen : Bool
  timerActive : Bool
deriving DecidableEq, Repr

/-- The result of a slot: the state afterwards and the dialogs raised, in order. -/
abbrev Step := GameController × List Event

namespace GameController

/-- The helper `GameController::showWarningAndRetry`. -/
def showWarningAndRetry (s : GameController) (title text : String) (retry : Bool) : Step :=
  (s, [Event.warning title text retry])

/-- The method `GameController::updateDisplayedPhrase`. -/
def updateDisplayedPhrase (s : GameController) : GameController :=
  { s with displayedPhrase := s.phraseHandler.getDisplayedPhrase }

/-- The method `GameController::endGame(title, message)` up to its question: the timer is
stopped and the player is asked whether to start a new game. -/
def endGame (s : GameController) (title message : String) : Step :=
  ({ s with timerActive := false }, [Event.question title message])

/-- The method `GameController::handleWheelReward(landedSegment)`. -/
def handleWheelReward (s : GameController) (landedSegment : QString) : GameController :=
  if QString.contains landedSegment "gem".toList then
    let gemAmount := QString.toInt (QString.splitFirst landedSegment)
    { s with playerGems := s.playerGems.addGems gemAmount }
  else if landedSegment = "Free Hint".toList then
    { s with freeHintsCount := s.freeHintsCount + 1 }
  else s

/-- The method `GameController::handleIncorrectGuess(landedSegment)`. -/
def handleIncorrectGuess (s : GameController) (landedSegment : QString) : Step :=
  let s1 :=
    if landedSegment = "-5 seconds".toList then { s with remainingTime := s.remainingTime - 5 }
    else if landedSegment = "-10 seconds".toList then { s with remainingTime := s.remainingTime - 10 }
    else s
  let w := showWarningAndRetry s1 "Incorrect" "The letter is not in the phrase." false
  let s2 := if w.1.remainingTime < 0 then { w.1 with remainingTime := 0 } else w.1
  if s2.remainingTime = 0 then
    let e := endGame s2 "Time's Up!" "You ran out of time! Do you want to start a new game?"
    (e.1, w.2 ++ e.2)
  else (s2, w.2)

/-- The slot `GameController::updateTimer`, up to the question it raises when time is up. -/
def updateTimer (s : GameController) : Step :=
  if s.remainingTime ≤ 0 then
    let s1 := { s with timerActive := false }
    let s2 := updateDisplayedPhrase { s1 with phraseHandler := s1.phraseHandler.revealPhrase }
    (s2, [Event.question "Time's Up!" "You ran out of time! Do you want to start a new game?"])
  else
    ({ s with remainingTime := s.remainingTime - 1 }, [])

/-- The state and the dialogs after `n` consecutive calls of `updateTimer`. -/
def ticks : Nat → GameController → Step
  | 0, s => (s, [])
  | n + 1, s =>
    let r := ticks n s
    let t := updateTimer r.1
    (t.1, r.2 ++ t.2)

/-- The closure `askForLetter` of `startLetterGuessing`: opens the input dialog unless the
round is over. -/
def askForLetter (s : GameController) : Step :=
  if !s.gameActive || s.remainingTime ≤ 0 then ({ s with letterDialogOpen := false }, [])
  else (s, [Event.letterDialog])

/-- The method `GameController::startLetterGuessing(landedSegment)`, up to the input dialog;
the tag is only read later, by the handler `letterSelected`. -/
def startLetterGuessing (s : GameController) (_landedSegment : QString) : Step :=
  if !s.gameActive || s.remainingTime ≤ 0 || s.letterDialogOpen then (s, [])
  else askForLetter { s with letterDialogOpen := true }

/-- The handler of `textValueSelected` in `startLetterGuessing`: the player entered `guess`
after the wheel landed on `landedSegment`. -/
def letterSelected [QtText] (s : GameController) (landedSegment guess : QString) : Step :=
  let s0 := { s with letterDialogOpen := false }
  let letter : Char := if guess.isEmpty then Char.ofNat 0 else QChar.toUpper (guess.getD 0 ' ')
  if guess.length ≠ 1 then
    showWarningAndRetry s0 "Invalid Input" "Please enter only one letter." true
  else if !QChar.isLetter letter then
    showWarningAndRetry s0 "Invalid Input" "Enter a single letter (A-Z)." true
  else if "AEIOU".toList.contains letter then
    showWarningAndRetry s0 "Invalid Letter" "Vowels are not allowed!" true
  else if s0.guessedLetters.contains letter then
    showWarningAndRetry s0 "Already Guessed" "You already guessed that letter!" true
  else
    let s1 := { s0 with guessedLetters := s0.guessedLetters.insert letter }
    let g := s1.phraseHandler.guessLetter letter
    let s2 := { s1 with phraseHandler := g.1 }
    if g.2 then
      let s3 := handleWheelReward (updateDisplayedPhrase s2) landedSegment
      if s3.phraseHandler.isComplete then
        endGame s3 "You Win!" "You guessed the full phrase!"
      else (s3, [])
    else
      handleIncorrectGuess s2 landedSegment

/-- The slot `GameController::buyVowel`, up to the input dialog it opens. The call
`wheel->stopSpin()` emits `landedSegment` while `gameActive` is false, so the letter
dialog it would start returns at once and the round state is untouched by it. -/
def buyVowel (s : GameController) : Step :=
  let s1 := { s with gameActive := false }
  let r : Step :=
    if s1.playerGems.getGems < 3 then
      showWarningAndRetry s1 "Not enough gems" "Need 3 gems!" false
    else
      ({ s1 with playerGems := (s1.playerGems.spendGems 3).1 }, [Event.vowelDialog])
  ({ r.1 with gameActive := true }, r.2)

/-- The handler of `textValueSelected` in `buyVowel`: the player entered `guess`. -/
def vowelSelected [QtText] (s : GameController) (guess : QString) : Step :=
  if guess.isEmpty || guess.length ≠ 1 || !QChar.isLetter (guess.getD 0 ' ') then
    showWarningAndRetry s "Invalid Input" "Enter a single vowel." true
  else
    let letter := QChar.toUpper (guess.getD 0 ' ')
    if !"AEIOU".toList.contains letter then
      showWarningAndRetry s "Invalid Input" "That's not a vowel." true
    else if s.guessedLetters.contains letter then
      showWarningAndRetry s "Already Guessed" "This letter was already guessed." true
    else
      let s1 := { s with guessedLetters := s.guessedLetters.insert letter }
      let g := s1.phraseHandler.guessLetter letter
      let s2 := { s1 with phraseHandler := g.1 }
      if g.2 then
        let s3 := updateDisplayedPhrase s2
        if s3.phraseHandler.isComplete then
          showWarningAndRetry s3 "You Win!" "You guessed the full phrase!" false
        else (s3, [])
      else
        showWarningAndRetry s2 "Incorrect" "The letter is not in the phrase." false

/-- The constant `maxHints` of `buyHint`. -/
def maxHints : Int := 3

/-- The read `hintsForCurrentPhrase[currentHintIndex]`; `none` when the index is outside
the list, where the C++ read is undefined. -/
def currentHint (s : GameController) : Option String :=
  if 0 ≤ s.currentHintIndex then s.hintsForCurrentPhrase[s.currentHintIndex.toNat]? else none

/-- The slot `GameController::buyHint`; `reply` is the answer to "Use Free Hint" (read only
when a free hint is available). The result is `none` when the hint list is read outside
its bounds. -/
def buyHint (s : GameController) (reply : Bool) : Option Step :=
  let s1 := { s with gameActive := false }
  if s1.currentHintIndex ≥ maxHints then
    let w := showWarningAndRetry s1 "No more hints"
      "You have already used all 3 hints for this phrase." false
    some ({ w.1 with gameActive := true }, w.2)
  else if s1.freeHintsCount > 0 then
    let q := Event.question "Use Free Hint" "You have a free hint! Do you want to use it?"
    if reply then
      let s2 := { s1 with freeHintsCount := s1.freeHintsCount - 1 }
      match currentHint s2 with
      | none => none
      | some hintText =>
        let s3 := { s2 with currentHintIndex := s2.currentHintIndex + 1 }
        let w := showWarningAndRetry s3 "Hint" hintText false
        some ({ w.1 with gameActive := true }, q :: w.2)
    else some ({ s1 with gameActive := true }, [q])
  else if s1.playerGems.getGems < 5 then
    let w := showWarningAndRetry s1 "Not enough gems" "You need 5 gems or a free hint!" false
    some ({ w.1 with gameActive := true }, w.2)
  else
    let s2 := { s1 with playerGems := (s1.playerGems.spendGems 5).1 }
    match currentHint s2 with
    | none => none
    | some hintText =>
      let s3 := { s2 with currentHintIndex := s2.currentHintIndex + 1 }
      let w := showWarningAndRetry s3 "Hint:" hintText false
      some ({ w.1 with gameActive := true }, w.2)

/-- The hint text shown by a call of `buyHint`, if it showed one. -/
def hintShown (evs : List Event) : Option String :=
  evs.findSome? (fun e =>
    match e with
    | Event.warning title text _ => if title = "Hint" ∨ title = "Hint:" then some text else none
    | _ => none)

/-- The slot `GameController::solvePhrase`; `playerInput` is the text entered in the dialog
"Solve Phrase", `none` when the player cancelled it. -/
def solvePhrase [QtText] (s : GameController) (playerInput : Option QString) : Step :=
  if !s.gameActive then (s, [])
  else
    let s1 := { s with gameActive := false, timerActive := false, letterDialogOpen := false }
    match playerInput with
    | none => ({ s1 with gameActive := true, timerActive := true }, [])
    | some input =>
      if input.isEmpty then ({ s1 with gameActive := true, timerActive := true }, [])
      else
        let inputUpper := QString.toUpper input
        let phraseUpper := QString.toUpper s1.phraseHandler.originalPhrase
        if inputUpper = phraseUpper then
          let s2 := updateDisplayedPhrase { s1 with phraseHandler := s1.phraseHandler.revealPhrase }
          (s2, [Event.wonDialog])
        else
          let s2 := { s1 with remainingTime := s1.remainingTime - 5 }
          let s3 := if s2.remainingTime < 0 then { s2 with remainingTime := 0 } else s2
          let w := showWarningAndRetry s3 "Incorrect" "Sorry, that was not correct. Keep playing!" false
          ({ w.1 with gameActive := true, timerActive := true }, w.2)

/-- The method `GameController::initializePhrase`; `selectedPhrase` is the phrase drawn
from the library. -/
def initializePhrase (s : GameController) (selectedPhrase : Phrase) : GameController :=
  let ph := PhraseHandler.new selectedPhrase.text
  { s with
    phraseHandler := ph
    displayedPhrase := ph.getDisplayedPhrase
    currentHintIndex := 0
    hintsForCurrentPhrase := selectedPhrase.hints }

/-- The method `GameController::startNewGame`; `selectedPhrase` is the phrase drawn from
the library. -/
def startNewGame (s : GameController) (selectedPhrase : Phrase) : GameController :=
  let s1 := { s with guessedLetters := [], freeHintsCount := 0 }
  let s2 := updateDisplayedPhrase (initializePhrase s1 selectedPhrase)
  let s3 := { s2 with remainingTime := if s2.difficulty = 0 then 120 else 180 }
  { s3 with timerActive := true, playerGems := s3.playerGems.resetGems 0 }

end GameController

/-! ## Auxiliary definitions for the statements -/

/-- Closed form of `calculateSegment` on a whole number of degrees below 360. -/
def segmentOfDegrees (a : Nat) : Int := 7 - (((2 * a + 45) % 720 / 90 : Nat) : Int)

/-- The states reached from `s0` by calls of `buyHint` interleaved with other operations
(`other`), which write neither `currentHintIndex` nor `hintsForCurrentPhrase`; the list
holds the hint texts shown so far, first hint first. -/
inductive HintRun (s0 : GameController) : GameController → List String → Prop where
  | start : HintRun s0 s0 []
  | other (s t : GameController) (out : List String) :
      HintRun s0 s out → t.currentHintIndex = s.currentHintIndex →
      t.hintsForCurrentPhrase = s.hintsForCurrentPhrase → HintRun s0 t out
  | buy (s t : GameController) (out : List String) (reply : Bool) (evs : List Event) :
      HintRun s0 s out → GameController.buyHint s reply = some (t, evs) →
      HintRun s0 t (out ++ (GameController.hintShown evs).toList)

/-- A round on the phrase `CAT` with three seconds left, no gems and no free hint. -/
def catRound : GameController :=
  { difficulty := 0
    phraseHandler := PhraseHandler.new "CAT".toList
    displayedPhrase := (PhraseHandler.new "CAT".toList).getDisplayedPhrase
    guessedLetters := []
    remainingTime := 3
    playerGems := { gems := 0 }
    freeHintsCount := 0
    currentHintIndex := 0
    hintsForCurrentPhrase := ["It purrs", "A pet", "A feline"]
    gameActive := true
    letterDialogOpen := false
    timerActive := true }

/-- A phrase with three hints. -/
def catPhrase : Phrase :=
  { text := "CAT".toList, category := "Animals", hints := ["It purrs", "A pet", "A feline"] }

/-- Whether a dialog is a warning after which the input dialog is asked again. -/
def Event.isRetry : Event → Bool
  | .warning _ _ retry => retry
  | _ => false

/-- Whether a slot rejected the text entered: it raised a warning that asks again. -/
def rejected (r : Step) : Bool := r.2.any Event.isRetry

/-- An operation of a round: a slot of the controller or a handler of one of its dialogs,
with the player's input. -/
inductive Op where
  /-- One call of `updateTimer`. -/
  | tick
  /-- The wheel landed: `startLetterGuessing(landedSegment)`. -/
  | spinLanded (landedSegment : QString)
  /-- A text entered in "Guess a Letter" after the wheel landed on `landedSegment`. -/
  | letter (landedSegment guess : QString)
  /-- The button "Buy Vowel". -/
  | buyVowel
  /-- A text entered in "Buy a Vowel". -/
  | vowel (guess : QString)
  /-- The button "Buy Hint", with the answer to "Use Free Hint". -/
  | buyHint (reply : Bool)
  /-- The button "Solve Phrase", with the text entered (`none` when cancelled). -/
  | solvePhrase (playerInput : Option QString)
  /-- A new game on the phrase drawn from the library. -/
  | startNewGame (selectedPhrase : Phrase)
deriving DecidableEq, Repr

/-- The result of one operation; `none` only when `buyHint` reads the hint list outside
its bounds. -/
def Op.apply [QtText] (s : GameController) : Op → Option Step
  | .tick => some (GameController.updateTimer s)
  | .spinLanded tag => some (GameController.startLetterGuessing s tag)
  | .letter tag guess => some (GameController.letterSelected s tag guess)
  | .buyVowel => some (GameController.buyVowel s)
  | .vowel guess => some (GameController.vowelSelected s guess)
  | .buyHint reply => GameController.buyHint s reply
  | .solvePhrase input => some (GameController.solvePhrase s input)
  | .startNewGame p => some (GameController.startNewGame s p, [])

/-- The states after each operation of a sequence, first operation first; the list ends
early if an operation has no result. -/
def runStates [QtText] (s : GameController) : List Op → List GameController
  | [] => []
  | op :: rest =>
    match Op.apply s op with
    | none => []
    | some r => r.1 :: runStates r.1 rest

/-- Whether the wheel tag of an operation, if it has one, is one of the 8 configured tags. -/
def Op.configured : Op → Bool
  | .spinLanded tag => segments.contains tag
  | .letter tag _ => segments.contains tag
  | _ => true

/-- Whether the phrase drawn by a new game, if the operation is one, has at least 3 hints. -/
def Op.enoughHints : Op → Bool
  | .startNewGame p => decide (3 ≤ p.hints.length)
  | _ => true

/-- The state after `buyVowel` followed by the texts entered in its dialog, in order. -/
def vowelEntries [QtText] (s : GameController) (entries : List QString) : GameController :=
  entries.foldl (fun t guess => (GameController.vowelSelected t guess).1) s

/-- The 3-character slot of position `i` in a displayed phrase. -/
def slot (displayed : QString) (i : Nat) : QString := (displayed.drop (3 * i)).take 3

/-- A round on the phrase `CAT` where only the vowel is still hidden, with 3 gems. -/
def lastVowelRound : GameController :=
  { catRound with
    phraseHandler :=
      applyOps (PhraseHandler.new "CAT".toList) [PhraseOp.guess 'C', PhraseOp.guess 'T']
    displayedPhrase :=
      (applyOps (PhraseHandler.new "CAT".toList)
        [PhraseOp.guess 'C', PhraseOp.guess 'T']).getDisplayedPhrase
    guessedLetters := ['C', 'T']
    remainingTime := 60
    playerGems := { gems := 3 } }

/-- A round on the phrase `CAT` where only the consonant `T` is still hidden. -/
def lastConsonantRound : GameController :=
  { catRound with
    phraseHandler :=
      applyOps (PhraseHandler.new "CAT".toList) [PhraseOp.guess 'C', PhraseOp.guess 'A']
    displayedPhrase :=
      (applyOps (PhraseHandler.new "CAT".toList)
        [PhraseOp.guess 'C', PhraseOp.guess 'A']).getDisplayedPhrase
    guessedLetters := ['C', 'A']
    remainingTime := 60 }

/-- The three characters `getDisplayedPhrase` appends for the mask character `c`. -/
def slotOf (c : Char) : QString := if c = ' ' then [' ', ' ', ' '] else [c, ' ', ' ']

/-- Closed form of `getDisplayedPhrase` on a mask: the slots of its characters in order. -/
def displayOf : QString → QString
  | [] => []
  | c :: cs => slotOf c ++ displayOf cs

/-- The hint index is within 0..3 and the hint list has at least 3 entries. -/
def hintsInRange (s : GameController) : Prop :=
  0 ≤ s.currentHintIndex ∧ s.currentHintIndex ≤ 3 ∧ 3 ≤ s.hintsForCurrentPhrase.length

/-! ## PhraseHandler: the loop of `guessLetter` and the reveal mask -/

namespace PhraseHandler

theorem new_currentLetters_aux (P : QString) (n : Nat) (hn : n ≤ P.length) :
    (List.range n).foldl
        (fun cur i => if P.getD i ' ' = ' ' then cur ++ [' '] else cur ++ ['_']) []
      = (P.take n).map (fun c => if c = ' ' then ' ' else '_') := by
  induction n with
  | zero => simp
  | succ n ih =>
    have hlt : n < P.length := hn
    rw [List.range_succ, List.foldl_append, ih (Nat.le_of_lt hlt)]
    have ht : P.take (n + 1) = P.take n ++ [P[n]] := by
      rw [List.take_succ, List.getElem?_eq_getElem hlt]; rfl
    have hg : P.getD n ' ' = P[n] := by simp [List.getD, List.getElem?_eq_getElem hlt]
    rw [ht]
    simp only [List.foldl_cons, List.foldl_nil, hg, List.map_append, List.map_cons, List.map_nil]
    split <;> rfl

theorem new_currentLetters (P : QString) :
    (new P).currentLetters = P.map (fun c => if c = ' ' then ' ' else '_') := by
  unfold new
  simp only
  rw [new_currentLetters_aux P P.length (le_refl _), List.take_length]

theorem guessLoop_spec [QtText] (h : PhraseHandler) (L : Char) (n : Nat) :
    ((List.range n).foldl (guessStep L) (h, false)).1.originalPhrase = h.originalPhrase ∧
    ((List.range n).foldl (guessStep L) (h, false)).1.currentLetters.length
      = h.currentLetters.length ∧
    (∀ j, ((List.range n).foldl (guessStep L) (h, false)).1.currentLetters[j]? =
      if j < n ∧ j < h.currentLetters.length ∧ QChar.toUpper (h.originalPhrase.getD j ' ') = L
      then some (h.originalPhrase.getD j ' ') else h.currentLetters[j]?) ∧
    (((List.range n).foldl (guessStep L) (h, false)).2 = true ↔
      ∃ j, j < n ∧ QChar.toUpper (h.originalPhrase.getD j ' ') = L) := by
  induction n with
  | zero => simp
  | succ n ih =>
    obtain ⟨ho, hl, hc, hf⟩ := ih
    rw [List.range_succ, List.foldl_append]
    simp only [List.foldl_cons, List.foldl_nil]
    generalize (List.range n).foldl (guessStep L) (h, false) = r at ho hl hc hf
    unfold guessStep
    rw [ho]
    by_cases hm : QChar.toUpper (h.originalPhrase.getD n ' ') = L
    · simp only [hm, if_true]
      refine ⟨ho, ?_, ?_, ?_⟩
      · simp [hl]
      · intro j
        rw [List.getElem?_set]
        by_cases hjn : n = j
        · subst hjn
          have hm2 := hm
          rw [List.getD_eq_getElem?_getD] at hm2
          by_cases hlen : n < h.currentLetters.length
          · simp [hl, hm2, hlen]
          · simp [hl, hlen, List.getElem?_eq_none (Nat.le_of_not_lt hlen)]
        · simp only [hjn, if_false, hc j]
          have : (j < n + 1) ↔ (j < n) := by omega
          simp only [this]
      · simp only [true_iff]
        exact ⟨n, Nat.lt_succ_self n, hm⟩
    · simp only [hm, if_false]
      refine ⟨ho, hl, ?_, ?_⟩
      · intro j
        rw [hc j]
        by_cases hjn : j = n
        · subst hjn
          have hm2 := hm
          rw [List.getD_eq_getElem?_getD] at hm2
          simp [hm2]
        · have : (j < n + 1) ↔ (j < n) := by omega
          simp only [this]
      · rw [hf]
        constructor
        · rintro ⟨j, hj, e⟩; exact ⟨j, Nat.lt_succ_of_lt hj, e⟩
        · rintro ⟨j, hj, e⟩
          have : j ≠ n := fun e2 => hm (e2 ▸ e)
          exact ⟨j, by omega, e⟩


theorem guessLetter_originalPhrase [QtText] (h : PhraseHandler) (l : Char) :
    (h.guessLetter l).1.originalPhrase = h.originalPhrase :=
  (guessLoop_spec h (QChar.toUpper l) h.originalPhrase.length).1

theorem guessLetter_length [QtText] (h : PhraseHandler) (l : Char) :
    (h.guessLetter l).1.currentLetters.length = h.currentLetters.length :=
  (guessLoop_spec h (QChar.toUpper l) h.originalPhrase.length).2.1

theorem guessLetter_getElem? [QtText] (h : PhraseHandler) (l : Char)
    (hlen : h.currentLetters.length = h.originalPhrase.length) (j : Nat) :
    (h.guessLetter l).1.currentLetters[j]? =
      match h.originalPhrase[j]? with
      | some c => if QChar.toUpper c = QChar.toUpper l then some c else h.currentLetters[j]?
      | none => none := by
  have key := (guessLoop_spec h (QChar.toUpper l) h.originalPhrase.length).2.2.1 j
  unfold guessLetter
  rw [key]
  by_cases hj : j < h.originalPhrase.length
  · have hg : h.originalPhrase.getD j ' ' = h.originalPhrase[j] := by
      simp [List.getD, List.getElem?_eq_getElem hj]
    rw [List.getElem?_eq_getElem hj, hg]
    simp [hj, hlen]
  · have hn : h.originalPhrase[j]? = none := List.getElem?_eq_none (Nat.le_of_not_lt hj)
    have hn2 : h.currentLetters[j]? = none :=
      List.getElem?_eq_none (by rw [hlen]; exact Nat.le_of_not_lt hj)
    simp [hj, hn, hn2]

theorem guessLetter_found [QtText] (h : PhraseHandler) (l : Char) :
    (h.guessLetter l).2 = true ↔
      ∃ (i : Nat) (c : Char), h.originalPhrase[i]? = some c ∧ QChar.toUpper c = QChar.toUpper l := by
  have key := (guessLoop_spec h (QChar.toUpper l) h.originalPhrase.length).2.2.2
  unfold guessLetter
  rw [key]
  constructor
  · rintro ⟨j, hj, e⟩
    refine ⟨j, h.originalPhrase[j], List.getElem?_eq_getElem hj, ?_⟩
    have hg : h.originalPhrase.getD j ' ' = h.originalPhrase[j] := by
      simp [List.getD, List.getElem?_eq_getElem hj]
    rw [← hg]; exact e
  · rintro ⟨i, c, hc, e⟩
    obtain ⟨hi, rfl⟩ := List.getElem?_eq_some.mp hc
    refine ⟨i, hi, ?_⟩
    have hg : h.originalPhrase.getD i ' ' = h.originalPhrase[i] := by
      simp [List.getD, List.getElem?_eq_getElem hi]
    rw [hg]; exact e

theorem isComplete_iff (h : PhraseHandler)
    (hlen : h.currentLetters.length = h.originalPhrase.length) :
    h.isComplete = true ↔
      ∀ (i : Nat) (o c : Char), h.originalPhrase[i]? = some o → h.currentLetters[i]? = some c →
        o ≠ ' ' → c ≠ '_' := by
  unfold isComplete
  rw [List.all_eq_true]
  constructor
  · intro hall i o c ho hc hne
    obtain ⟨hi, rfl⟩ := List.getElem?_eq_some.mp ho
    obtain ⟨hi2, rfl⟩ := List.getElem?_eq_some.mp hc
    have := hall i (List.mem_range.mpr hi2)
    simp [List.getD, List.getElem?_eq_getElem hi, List.getElem?_eq_getElem hi2] at this
    rcases this with h1 | h1
    · exact absurd h1 hne
    · exact h1
  · intro hall i hi
    have hi2 : i < h.currentLetters.length := List.mem_range.mp hi
    have hi1 : i < h.originalPhrase.length := hlen ▸ hi2
    have := hall i _ _ (List.getElem?_eq_getElem hi1) (List.getElem?_eq_getElem hi2)
    simp [List.getD, List.getElem?_eq_getElem hi1, List.getElem?_eq_getElem hi2]
    by_cases h1 : h.originalPhrase[i] = ' '
    · exact Or.inl h1
    · exact Or.inr (this h1)

end PhraseHandler

theorem applyOps_snoc [QtText] (h : PhraseHandler) (ops : List PhraseOp) (op : PhraseOp) :
    applyOps h (ops ++ [op]) = PhraseOp.apply (applyOps h ops) op := by
  simp [applyOps, List.foldl_append]

theorem applyOps_inv [QtText] (P : QString) (ops : List PhraseOp) :
    (applyOps (PhraseHandler.new P) ops).originalPhrase = P ∧
    (applyOps (PhraseHandler.new P) ops).currentLetters.length = P.length := by
  induction ops using List.reverseRecOn with
  | nil =>
    refine ⟨rfl, ?_⟩
    simp [applyOps, PhraseHandler.new_currentLetters]
  | append_singleton ops op ih =>
    rw [applyOps_snoc]
    cases op with
    | guess l =>
      exact ⟨by rw [PhraseOp.apply, PhraseHandler.guessLetter_originalPhrase]; exact ih.1,
        by rw [PhraseOp.apply, PhraseHandler.guessLetter_length]; exact ih.2⟩
    | reveal =>
      simp [PhraseOp.apply, PhraseHandler.revealPhrase, ih.1]

theorem revealedIn_snoc_guess (ops : List PhraseOp) (l : Char) :
    revealedIn (ops ++ [PhraseOp.guess l]) = revealedIn ops := by
  simp [revealedIn, List.contains_eq_any_beq, List.any_append]

theorem revealedIn_snoc_reveal (ops : List PhraseOp) :
    revealedIn (ops ++ [PhraseOp.reveal]) = true := by
  simp [revealedIn]

theorem guessedIn_snoc_guess (ops : List PhraseOp) (l : Char) :
    guessedIn (ops ++ [PhraseOp.guess l]) = guessedIn ops ++ [l] := by
  simp [guessedIn, List.filterMap_append]

theorem guessedIn_snoc_reveal (ops : List PhraseOp) :
    guessedIn (ops ++ [PhraseOp.reveal]) = guessedIn ops := by
  simp [guessedIn, List.filterMap_append]

theorem applyOps_currentLetters [QtText] (P : QString) (ops : List PhraseOp) :
    (applyOps (PhraseHandler.new P) ops).currentLetters = P.map (maskChar ops) := by
  induction ops using List.reverseRecOn with
  | nil =>
    simp only [applyOps, List.foldl_nil, PhraseHandler.new_currentLetters]
    apply List.map_congr_left
    intro c _
    simp [maskChar, revealedIn, guessedIn]
  | append_singleton ops op ih =>
    have hinv := applyOps_inv P ops
    rw [applyOps_snoc]
    cases op with
    | guess l =>
      apply List.ext_getElem?
      intro j
      have hlen : (applyOps (PhraseHandler.new P) ops).currentLetters.length
          = (applyOps (PhraseHandler.new P) ops).originalPhrase.length := by
        rw [hinv.1, hinv.2]
      rw [PhraseOp.apply, PhraseHandler.guessLetter_getElem? _ l hlen j, hinv.1, ih]
      rw [List.getElem?_map, List.getElem?_map]
      cases hP : P[j]? with
      | none => rfl
      | some c =>
        simp only [Option.map_some']
        by_cases hm : QChar.toUpper c = QChar.toUpper l
        · simp only [hm, maskChar, guessedIn_snoc_guess, List.any_append, if_true]
          simp only [List.any_cons, decide_True, List.any_nil, Bool.or_false, Bool.or_true, if_true]
          split <;> simp_all
        · simp [hm, maskChar, guessedIn_snoc_guess, revealedIn_snoc_guess, List.any_append]
    | reveal =>
      simp only [PhraseOp.apply, PhraseHandler.revealPhrase, hinv.1]
      conv_lhs => rw [← List.map_id P]
      apply List.map_congr_left
      intro c _
      simp only [maskChar, revealedIn_snoc_reveal, Bool.true_or, if_true, id]
      split <;> simp_all

theorem maskChar_ne_underscore [QtText] (ops : List PhraseOp) (c : Char) (h1 : c ≠ ' ') (h2 : c ≠ '_') :
    maskChar ops c ≠ '_' ↔
      (revealedIn ops = true ∨ ∃ l ∈ guessedIn ops, QChar.toUpper c = QChar.toUpper l) := by
  unfold maskChar
  simp only [h1, if_false]
  by_cases hr : revealedIn ops = true
  · simp [hr, h2]
  · by_cases hg : ∃ l ∈ guessedIn ops, QChar.toUpper c = QChar.toUpper l
    · have : (guessedIn ops).any (fun l => decide (QChar.toUpper c = QChar.toUpper l)) = true := by
        rw [List.any_eq_true]
        obtain ⟨l, hl, e⟩ := hg
        exact ⟨l, hl, by simp [e]⟩
      simp [this, h2, hg]
    · have : (guessedIn ops).any (fun l => decide (QChar.toUpper c = QChar.toUpper l)) = false := by
        rw [Bool.eq_false_iff]
        intro h
        rw [List.any_eq_true] at h
        obtain ⟨l, hl, e⟩ := h
        exact hg ⟨l, hl, by simpa using e⟩
      simp only [this, Bool.or_false]
      simp [hr, hg]

/-- C2 (amended): for a phrase without underscore, after any sequence of calls on a fresh
handler, `isComplete` is true iff every non-blank position shows its phrase character, and
iff `revealPhrase` was called or every non-blank character matches a guessed letter up to
case. -/
theorem isComplete_iff_all_revealed [QtText] (P : QString) (hP : '_' ∉ P) (ops : List PhraseOp) :
    ((applyOps (PhraseHandler.new P) ops).isComplete = true ↔
      ∀ (i : Nat) (c : Char), P[i]? = some c → c ≠ ' ' →
        (applyOps (PhraseHandler.new P) ops).currentLetters[i]? = some c) ∧
    ((applyOps (PhraseHandler.new P) ops).isComplete = true ↔
      (revealedIn ops = true ∨
        ∀ c ∈ P, c ≠ ' ' → ∃ l ∈ guessedIn ops, QChar.toUpper c = QChar.toUpper l)) := by
  have hinv := applyOps_inv P ops
  have hcur := applyOps_currentLetters P ops
  have hlen : (applyOps (PhraseHandler.new P) ops).currentLetters.length
      = (applyOps (PhraseHandler.new P) ops).originalPhrase.length := by rw [hinv.1, hinv.2]
  have hbase : (applyOps (PhraseHandler.new P) ops).isComplete = true ↔
      ∀ c ∈ P, c ≠ ' ' → maskChar ops c ≠ '_' := by
    rw [PhraseHandler.isComplete_iff _ hlen, hinv.1, hcur]
    constructor
    · intro hall c hc hne
      obtain ⟨i, hi, rfl⟩ := List.getElem_of_mem hc
      exact hall i P[i] (maskChar ops P[i]) (List.getElem?_eq_getElem hi)
        (by rw [List.getElem?_map, List.getElem?_eq_getElem hi]; rfl) hne
    · intro hall i o c ho hc hne
      rw [List.getElem?_map, ho] at hc
      simp only [Option.map_some', Option.some.injEq] at hc
      rw [← hc]
      exact hall o (List.getElem?_mem ho) hne
  have hne_us : ∀ c ∈ P, c ≠ '_' := fun c hc e => hP (e ▸ hc)
  constructor
  · rw [hbase, hcur]
    constructor
    · intro hall i c hc hne
      rw [List.getElem?_map, hc]
      simp only [Option.map_some', Option.some.injEq]
      have hm := hall c (List.getElem?_mem hc) hne
      unfold maskChar at hm ⊢
      simp only [hne, if_false] at hm ⊢
      split
      · rfl
      · rename_i hx; simp [hx] at hm
    · intro hall c hc hne
      obtain ⟨i, hi, rfl⟩ := List.getElem_of_mem hc
      have := hall i P[i] (List.getElem?_eq_getElem hi) hne
      rw [List.getElem?_map, List.getElem?_eq_getElem hi] at this
      simp only [Option.map_some', Option.some.injEq] at this
      rw [this]
      exact hne_us _ hc
  · rw [hbase]
    constructor
    · intro hall
      by_cases hr : revealedIn ops = true
      · exact Or.inl hr
      · right
        intro c hc hne
        rcases (maskChar_ne_underscore ops c hne (hne_us c hc)).mp (hall c hc hne) with h1 | h1
        · exact absurd h1 hr
        · exact h1
    · intro hor c hc hne
      rw [maskChar_ne_underscore ops c hne (hne_us c hc)]
      rcases hor with h1 | h1
      · exact Or.inl h1
      · exact Or.inr (h1 c hc hne)

/-- C3: on every handler reached from the constructor, `guessLetter(l)` returns true iff
some position matches `l` up to case; afterwards each matching position shows the phrase
character in its original case and every other position shows what it showed before. -/
theorem guessLetter_reveals_matches [QtText] (P : QString) (ops : List PhraseOp) (l : Char) :
    (((applyOps (PhraseHandler.new P) ops).guessLetter l).2 = true ↔
      ∃ (i : Nat) (c : Char), P[i]? = some c ∧ QChar.toUpper c = QChar.toUpper l) ∧
    (∀ (i : Nat) (c : Char), P[i]? = some c →
      (QChar.toUpper c = QChar.toUpper l →
        ((applyOps (PhraseHandler.new P) ops).guessLetter l).1.currentLetters[i]? = some c) ∧
      (QChar.toUpper c ≠ QChar.toUpper l →
        ((applyOps (PhraseHandler.new P) ops).guessLetter l).1.currentLetters[i]?
          = (applyOps (PhraseHandler.new P) ops).currentLetters[i]?)) ∧
    ((applyOps (PhraseHandler.new P) ops).guessLetter l).1.currentLetters.length = P.length ∧
    ((applyOps (PhraseHandler.new P) ops).guessLetter l).1.originalPhrase = P := by
  have hinv := applyOps_inv P ops
  have hlen : (applyOps (PhraseHandler.new P) ops).currentLetters.length
      = (applyOps (PhraseHandler.new P) ops).originalPhrase.length := by rw [hinv.1, hinv.2]
  refine ⟨?_, ?_, ?_, ?_⟩
  · rw [PhraseHandler.guessLetter_found, hinv.1]
  · intro i c hc
    have key := PhraseHandler.guessLetter_getElem? _ l hlen i
    rw [hinv.1, hc] at key
    simp only at key
    constructor
    · intro hm; rw [key, if_pos hm]
    · intro hm; rw [key, if_neg hm]
  · rw [PhraseHandler.guessLetter_length, hinv.2]
  · rw [PhraseHandler.guessLetter_originalPhrase, hinv.1]

/-- C2 (counterexample): on the phrase `A_B`, after `revealPhrase` every position shows its
phrase character and yet `isComplete` is false. -/
theorem isComplete_false_after_reveal_underscore :
    revealedIn [PhraseOp.reveal] = true ∧
    (applyOps (PhraseHandler.new "A_B".toList) [PhraseOp.reveal]).currentLetters = "A_B".toList ∧
    (applyOps (PhraseHandler.new "A_B".toList) [PhraseOp.reveal]).isComplete = false := by
  decide

/-- C2 (witness): the phrase `Hi yo` after guessing `h`, `I`, `y`, `o`. -/
theorem isComplete_iff_all_revealed_witness :
    ((applyOps (PhraseHandler.new "Hi yo".toList)
        [PhraseOp.guess 'h', PhraseOp.guess 'I', PhraseOp.guess 'y', PhraseOp.guess 'o']).isComplete
      = true ↔
      (revealedIn [PhraseOp.guess 'h', PhraseOp.guess 'I', PhraseOp.guess 'y', PhraseOp.guess 'o']
          = true ∨
        ∀ c ∈ "Hi yo".toList, c ≠ ' ' →
          ∃ l ∈ guessedIn [PhraseOp.guess 'h', PhraseOp.guess 'I', PhraseOp.guess 'y',
            PhraseOp.guess 'o'], QChar.toUpper c = QChar.toUpper l)) :=
  (isComplete_iff_all_revealed "Hi yo".toList (by decide) _).2

/-! ## Wheel: segment resolution on whole degrees -/

theorem truncToInt_natCast_div (m d : ℕ) :
    truncToInt ((m : ℚ) / (d : ℚ)) = ((m / d : ℕ) : ℤ) := by
  unfold truncToInt
  have h0 : (0 : ℚ) ≤ (m : ℚ) / (d : ℚ) := by positivity
  rw [if_pos h0, Rat.floor_natCast_div_natCast]
  norm_cast

theorem fmod_half (m : ℕ) : fmod ((m : ℚ) / 2) 360 = ((m % 720 : ℕ) : ℚ) / 2 := by
  unfold fmod
  have h1 : (m : ℚ) / 2 / 360 = (m : ℚ) / ((720 : ℕ) : ℚ) := by push_cast; ring
  rw [h1, truncToInt_natCast_div]
  have hm : (m : ℚ) = 720 * ((m / 720 : ℕ) : ℚ) + ((m % 720 : ℕ) : ℚ) := by
    exact_mod_cast (Nat.div_add_mod m 720).symm
  have h2 : (((m / 720 : ℕ) : ℤ) : ℚ) = ((m / 720 : ℕ) : ℚ) := by norm_cast
  rw [h2]
  linarith

theorem fmod_natCast (n : ℕ) : fmod (n : ℚ) 360 = ((n % 360 : ℕ) : ℚ) := by
  have h1 : (n : ℚ) = ((2 * n : ℕ) : ℚ) / 2 := by push_cast; ring
  rw [h1, fmod_half]
  have h2 : 2 * n % 720 = 2 * (n % 360) := by omega
  rw [h2]; push_cast; ring

theorem calculateSegment_natCast (a : ℕ) :
    Wheel.calculateSegment (a : ℚ) = segmentOfDegrees a := by
  unfold Wheel.calculateSegment segmentOfDegrees
  simp only
  have h1 : (a : ℚ) + 45 / 2 = ((2 * a + 45 : ℕ) : ℚ) / 2 := by push_cast; ring
  rw [h1, fmod_half]
  have h2 : (((2 * a + 45) % 720 : ℕ) : ℚ) / 2 / segmentAngle
      = (((2 * a + 45) % 720 : ℕ) : ℚ) / ((90 : ℕ) : ℚ) := by
    unfold segmentAngle; push_cast; ring
  rw [h2, truncToInt_natCast_div]
  unfold numSegments
  ring

theorem landed_eq (w : Wheel) (r : ℕ) (hr : w.currentRotation = r) (hs : w.isSpinning = false)
    (o : ℕ) : w.landed o = segmentOfDegrees ((r + 2160 + o) % 360) := by
  unfold Wheel.landed Wheel.handleAnimationEnd Wheel.spinWheel
  simp only [hs, hr]
  have h1 : (r : ℚ) + 360 * 6 + (o : ℚ) = ((r + 2160 + o : ℕ) : ℚ) := by push_cast; ring
  simp only [Bool.false_eq_true, if_false]
  rw [h1, fmod_natCast, calculateSegment_natCast]

theorem map_add_mod_range_perm (n c : ℕ) :
    List.Perm ((List.range n).map (fun o => (c + o) % n)) (List.range n) := by
  have h : (List.range n).map (fun o => (c + o) % n) = (List.range n).rotate c := by
    apply List.ext_getElem
    · simp
    · intro i h1 h2
      rw [List.getElem_rotate]
      simp [Nat.add_comm]
  rw [h]
  exact List.rotate_perm _ _

theorem segmentOfDegrees_count :
    ∀ k : Fin 8, ((List.range 360).filter (fun a => decide (segmentOfDegrees a = (k : ℤ)))).length = 45 := by
  decide

theorem segmentOfDegrees_range (a : ℕ) : 0 ≤ segmentOfDegrees a ∧ segmentOfDegrees a < 8 := by
  unfold segmentOfDegrees
  have h : (2 * a + 45) % 720 / 90 < 8 := by omega
  omega

/-- C4: from an integer rotation `r` at rest, the 360 offsets of a spin are sent 45 to each
of the segment indices 0..7, and every emitted index is a valid index of the 8 reward
tags. -/
theorem landed_uniform (w : Wheel) (r : ℕ) (hr : w.currentRotation = (r : ℚ))
    (hs : w.isSpinning = false) :
    (∀ k : Fin 8,
      ((List.range 360).filter (fun o => decide (w.landed o = ((k : ℕ) : ℤ)))).length = 45) ∧
    (∀ o : ℕ, w.landed o
        = Wheel.calculateSegment (fmod ((r : ℚ) + 360 * 6 + (o : ℚ)) 360)) ∧
    (∀ o : ℕ, 0 ≤ w.landed o ∧ w.landed o < 8 ∧
      ∃ tag, segments[(w.landed o).toNat]? = some tag) := by
  refine ⟨?_, ?_, ?_⟩
  · intro k
    have hf : (fun o => decide (w.landed o = ((k : ℕ) : ℤ)))
        = (fun a => decide (segmentOfDegrees a = ((k : ℕ) : ℤ))) ∘
            (fun o => ((r + 2160) + o) % 360) := by
      funext o
      simp only [Function.comp, landed_eq w r hr hs o]
    rw [hf, ← List.length_map (List.filter _ _) (fun o => ((r + 2160) + o) % 360),
      ← List.filter_map]
    rw [((map_add_mod_range_perm 360 (r + 2160)).filter _).length_eq]
    exact segmentOfDegrees_count k
  · intro o
    unfold Wheel.landed Wheel.handleAnimationEnd Wheel.spinWheel
    simp [hs, hr]
  · intro o
    rw [landed_eq w r hr hs o]
    obtain ⟨h0, h8⟩ := segmentOfDegrees_range ((r + 2160 + o) % 360)
    refine ⟨h0, h8, ?_⟩
    have hlt : (segmentOfDegrees ((r + 2160 + o) % 360)).toNat < segments.length := by
      have : segments.length = 8 := rfl
      omega
    exact ⟨segments[(segmentOfDegrees ((r + 2160 + o) % 360)).toNat], List.getElem?_eq_getElem hlt⟩

/-- C4 (witness): a wheel at rest at rotation 0. -/
theorem landed_uniform_witness :
    (∀ k : Fin 8,
      ((List.range 360).filter
        (fun o => decide ((Wheel.mk false 0 0).landed o = ((k : ℕ) : ℤ)))).length = 45) ∧
    (∀ o : ℕ, 0 ≤ (Wheel.mk false 0 0).landed o ∧ (Wheel.mk false 0 0).landed o < 8) :=
  have h := landed_uniform (Wheel.mk false 0 0) 0 (by norm_num) rfl
  ⟨h.1, fun o => ⟨(h.2.2 o).1, (h.2.2 o).2.1⟩⟩

/-! ## GameController: the timer -/

namespace GameController

theorem updateTimer_of_pos (u : GameController) (h : 0 < u.remainingTime) :
    updateTimer u = ({ u with remainingTime := u.remainingTime - 1 }, []) := by
  unfold updateTimer
  rw [if_neg (not_le.mpr h)]

theorem updateTimer_of_nonpos (u : GameController) (h : u.remainingTime ≤ 0) :
    updateTimer u =
      (updateDisplayedPhrase
        { u with timerActive := false, phraseHandler := u.phraseHandler.revealPhrase },
       [Event.question "Time's Up!" "You ran out of time! Do you want to start a new game?"]) := by
  unfold updateTimer
  rw [if_pos h]

theorem ticks_zero (s : GameController) : ticks 0 s = (s, []) := rfl

theorem ticks_succ (n : Nat) (s : GameController) :
    ticks (n + 1) s =
      ((updateTimer (ticks n s).1).1, (ticks n s).2 ++ (updateTimer (ticks n s).1).2) := rfl

/-- C1 (amended): from `remainingTime = 3`, three ticks bring the timer to 0 and change
nothing else; the fourth tick reveals the phrase, stops the timer and raises the question
"Time's Up!". In general a tick with time left only decrements, and the tick made with no
time left is the one that reveals the phrase and ends the round. -/
theorem ticks_from_three (s : GameController) (h3 : s.remainingTime = 3) :
    ticks 3 s = ({ s with remainingTime := 0 }, []) ∧
    ticks 4 s =
      (updateDisplayedPhrase
        { s with remainingTime := 0, timerActive := false,
                 phraseHandler := s.phraseHandler.revealPhrase },
       [Event.question "Time's Up!" "You ran out of time! Do you want to start a new game?"]) ∧
    (ticks 4 s).1.phraseHandler.currentLetters = s.phraseHandler.originalPhrase ∧
    (∀ u : GameController, 0 < u.remainingTime →
      updateTimer u = ({ u with remainingTime := u.remainingTime - 1 }, [])) ∧
    (∀ u : GameController, u.remainingTime ≤ 0 →
      updateTimer u =
        (updateDisplayedPhrase
          { u with timerActive := false, phraseHandler := u.phraseHandler.revealPhrase },
         [Event.question "Time's Up!" "You ran out of time! Do you want to start a new game?"])) := by
  have e1 : ticks 1 s = ({ s with remainingTime := 2 }, []) := by
    rw [ticks_succ, ticks_zero, updateTimer_of_pos s (by omega), h3]
    rfl
  have e2 : ticks 2 s = ({ s with remainingTime := 1 }, []) := by
    rw [ticks_succ, e1, updateTimer_of_pos _ (by simp)]
    rfl
  have e3 : ticks 3 s = ({ s with remainingTime := 0 }, []) := by
    rw [ticks_succ, e2, updateTimer_of_pos _ (by simp)]
    rfl
  have e4 : ticks 4 s =
      (updateDisplayedPhrase
        { s with remainingTime := 0, timerActive := false,
                 phraseHandler := s.phraseHandler.revealPhrase },
       [Event.question "Time's Up!" "You ran out of time! Do you want to start a new game?"]) := by
    rw [ticks_succ, e3, updateTimer_of_nonpos _ (by simp)]
    rfl
  refine ⟨e3, e4, ?_, updateTimer_of_pos, updateTimer_of_nonpos⟩
  rw [e4]
  rfl

end GameController

/-- C1 (counterexample): on the round `catRound`, which has 3 seconds left and a hidden
phrase, after three ticks the timer is 0 but the phrase is still hidden, the timer still
runs and no dialog was raised. -/
theorem three_ticks_leave_phrase_hidden :
    catRound.remainingTime = 3 ∧ catRound.phraseHandler.isComplete = false ∧
    (GameController.ticks 3 catRound).1.remainingTime = 0 ∧
    (GameController.ticks 3 catRound).1.phraseHandler.currentLetters = "___".toList ∧
    (GameController.ticks 3 catRound).1.phraseHandler.isComplete = false ∧
    (GameController.ticks 3 catRound).1.timerActive = true ∧
    (GameController.ticks 3 catRound).2 = [] := by
  decide

/-- C1 (witness): the round `catRound`. -/
theorem ticks_from_three_witness :
    GameController.ticks 3 catRound = ({ catRound with remainingTime := 0 }, []) ∧
    (GameController.ticks 4 catRound).1.phraseHandler.currentLetters = "CAT".toList :=
  ⟨(GameController.ticks_from_three catRound rfl).1,
   (GameController.ticks_from_three catRound rfl).2.2.1⟩

/-! ## GameController: hints -/

namespace GameController

theorem buyHint_step (s : GameController) (reply : Bool)
    (h0 : 0 ≤ s.currentHintIndex) (hlen : s.currentHintIndex.toNat < s.hintsForCurrentPhrase.length
      ∨ 3 ≤ s.currentHintIndex) :
    ∃ t evs, buyHint s reply = some (t, evs) ∧
      t.hintsForCurrentPhrase = s.hintsForCurrentPhrase ∧
      ((t.currentHintIndex = s.currentHintIndex ∧ hintShown evs = none ∧
          t.freeHintsCount = s.freeHintsCount ∧ t.playerGems = s.playerGems) ∨
       (s.currentHintIndex < 3 ∧ t.currentHintIndex = s.currentHintIndex + 1 ∧
          hintShown evs = s.hintsForCurrentPhrase[s.currentHintIndex.toNat]? ∧
          s.currentHintIndex.toNat < s.hintsForCurrentPhrase.length)) := by
  unfold buyHint
  simp only [maxHints, showWarningAndRetry, ge_iff_le, gt_iff_lt]
  by_cases h3 : 3 ≤ s.currentHintIndex
  · rw [if_pos h3]
    exact ⟨_, _, rfl, rfl, Or.inl ⟨rfl, by decide, rfl, rfl⟩⟩
  · rw [if_neg h3]
    have hlt : s.currentHintIndex.toNat < s.hintsForCurrentPhrase.length := by
      rcases hlen with h | h
      · exact h
      · exact absurd h h3
    have hcur : ∀ u : GameController, u.currentHintIndex = s.currentHintIndex →
        u.hintsForCurrentPhrase = s.hintsForCurrentPhrase →
        currentHint u = some (s.hintsForCurrentPhrase[s.currentHintIndex.toNat]) := by
      intro u e1 e2
      unfold currentHint
      rw [e1, e2, if_pos h0, List.getElem?_eq_getElem hlt]
    by_cases hf : 0 < s.freeHintsCount
    · rw [if_pos hf]
      cases reply with
      | true =>
        simp only [if_true]
        simp only [hcur]
        refine ⟨_, _, rfl, rfl, Or.inr ⟨by omega, rfl, ?_, hlt⟩⟩
        rw [List.getElem?_eq_getElem hlt]
        simp [hintShown]
      | false =>
        simp only [Bool.false_eq_true, if_false]
        exact ⟨_, _, rfl, rfl, Or.inl ⟨rfl, by simp [hintShown], rfl, rfl⟩⟩
    · rw [if_neg hf]
      by_cases hg : s.playerGems.getGems < 5
      · rw [if_pos hg]
        exact ⟨_, _, rfl, rfl, Or.inl ⟨rfl, by simp [hintShown], rfl, rfl⟩⟩
      · rw [if_neg hg]
        simp only [hcur]
        refine ⟨_, _, rfl, rfl, Or.inr ⟨by omega, rfl, ?_, hlt⟩⟩
        rw [List.getElem?_eq_getElem hlt]
        simp [hintShown]

theorem hintRun_inv (s0 : GameController) (p : Phrase) (h3 : 3 ≤ p.hints.length)
    (s : GameController) (out : List String) (hrun : HintRun (initializePhrase s0 p) s out) :
    0 ≤ s.currentHintIndex ∧ s.currentHintIndex ≤ 3 ∧ s.hintsForCurrentPhrase = p.hints ∧
    out = p.hints.take s.currentHintIndex.toNat := by
  induction hrun with
  | start => exact ⟨le_refl _, by simp [initializePhrase], rfl, rfl⟩
  | other s t out _ e1 e2 ih =>
    rw [e1, e2]; exact ih
  | buy s t out reply evs _ hb ih =>
    obtain ⟨h0, hle, hh, hout⟩ := ih
    have hlen : s.currentHintIndex.toNat < s.hintsForCurrentPhrase.length
        ∨ 3 ≤ s.currentHintIndex := by
      by_cases h : 3 ≤ s.currentHintIndex
      · exact Or.inr h
      · left; rw [hh]; omega
    obtain ⟨t2, evs2, hb2, hhint, hcase⟩ := buyHint_step s reply h0 hlen
    rw [hb] at hb2
    simp only [Option.some.injEq, Prod.mk.injEq] at hb2
    obtain ⟨rfl, rfl⟩ := hb2
    rcases hcase with ⟨e, hs, _, _⟩ | ⟨hlt, e, hs, hbound⟩
    · rw [e, hs, hhint]
      exact ⟨h0, hle, hh, by simpa using hout⟩
    · rw [e, hs, hhint]
      refine ⟨by omega, by omega, hh, ?_⟩
      have hn : (s.currentHintIndex + 1).toNat = s.currentHintIndex.toNat + 1 := by omega
      rw [hn, List.take_succ, ← hout, hh]

/-- C5: between one `initializePhrase` and the next, on a phrase with at least 3 hints,
`currentHintIndex` stays within 0..3, the hints shown so far are the first
`currentHintIndex` hints of the list in list order, every call of `buyHint` reads the list
inside its bounds and shows either nothing or the next hint, and a call made at
`currentHintIndex = 3` is rejected with the index, the free hints and the gems unchanged. -/
theorem buyHint_hints_in_order (s0 : GameController) (p : Phrase) (h3 : 3 ≤ p.hints.length)
    (s : GameController) (out : List String) (hrun : HintRun (initializePhrase s0 p) s out) :
    (0 ≤ s.currentHintIndex ∧ s.currentHintIndex ≤ 3) ∧
    out = p.hints.take s.currentHintIndex.toNat ∧
    (∀ reply : Bool, ∃ t evs, buyHint s reply = some (t, evs) ∧
      ((t.currentHintIndex = s.currentHintIndex ∧ hintShown evs = none) ∨
       (s.currentHintIndex < 3 ∧ t.currentHintIndex = s.currentHintIndex + 1 ∧
        s.currentHintIndex.toNat < p.hints.length ∧
        hintShown evs = p.hints[s.currentHintIndex.toNat]?))) ∧
    (s.currentHintIndex = 3 → ∀ reply : Bool,
      buyHint s reply =
        some ({ s with gameActive := true },
          [Event.warning "No more hints" "You have already used all 3 hints for this phrase."
            false])) := by
  obtain ⟨h0, hle, hh, hout⟩ := hintRun_inv s0 p h3 s out hrun
  refine ⟨⟨h0, hle⟩, hout, ?_, ?_⟩
  · intro reply
    have hlen : s.currentHintIndex.toNat < s.hintsForCurrentPhrase.length
        ∨ 3 ≤ s.currentHintIndex := by
      by_cases h : 3 ≤ s.currentHintIndex
      · exact Or.inr h
      · left; rw [hh]; omega
    obtain ⟨t, evs, hb, _, hcase⟩ := buyHint_step s reply h0 hlen
    refine ⟨t, evs, hb, ?_⟩
    rcases hcase with ⟨e, hs, _, _⟩ | ⟨hlt, e, hs, hbound⟩
    · exact Or.inl ⟨e, hs⟩
    · exact Or.inr ⟨hlt, e, hh ▸ hbound, hh ▸ hs⟩
  · intro e3 reply
    unfold buyHint
    simp only [maxHints, showWarningAndRetry, ge_iff_le]
    rw [if_pos (by omega)]

end GameController

/-- C5 (witness): on `catPhrase`, with one free hint and 5 gems, a free hint and then a
paid one show the first two hints. -/
theorem buyHint_hints_in_order_witness :
    ∃ s : GameController, s.currentHintIndex = 2 ∧
      HintRun (GameController.initializePhrase
        { catRound with freeHintsCount := 1, playerGems := { gems := 5 } } catPhrase) s
        ["It purrs", "A pet"] ∧
      ["It purrs", "A pet"] = catPhrase.hints.take s.currentHintIndex.toNat := by
  let s0 := GameController.initializePhrase
    { catRound with freeHintsCount := 1, playerGems := { gems := 5 } } catPhrase
  have r0 : HintRun s0 s0 [] := HintRun.start
  have r1 := HintRun.buy s0 _ [] true _ r0 (by decide :
    GameController.buyHint s0 true = some
      ({ s0 with freeHintsCount := 0, currentHintIndex := 1 },
       [Event.question "Use Free Hint" "You have a free hint! Do you want to use it?",
        Event.warning "Hint" "It purrs" false]))
  have r2 := HintRun.buy _ _ _ true _ r1 (by decide :
    GameController.buyHint { s0 with freeHintsCount := 0, currentHintIndex := 1 } true = some
      ({ s0 with freeHintsCount := 0, currentHintIndex := 2, playerGems := { gems := 0 } },
       [Event.warning "Hint:" "A pet" false]))
  exact ⟨_, rfl, r2, (GameController.buyHint_hints_in_order _ catPhrase (by decide) _ _ r2).2.1⟩

/-! ## GameController: letter guesses after a spin -/

namespace GameController

theorem handleWheelReward_frame (s : GameController) (tag : QString) :
    (handleWheelReward s tag).phraseHandler = s.phraseHandler ∧
    (handleWheelReward s tag).guessedLetters = s.guessedLetters ∧
    (handleWheelReward s tag).remainingTime = s.remainingTime ∧
    (handleWheelReward s tag).timerActive = s.timerActive := by
  unfold handleWheelReward
  split_ifs <;> exact ⟨rfl, rfl, rfl, rfl⟩

theorem handleIncorrectGuess_frame (s : GameController) (tag : QString) :
    (handleIncorrectGuess s tag).1.phraseHandler = s.phraseHandler ∧
    (handleIncorrectGuess s tag).1.guessedLetters = s.guessedLetters ∧
    (handleIncorrectGuess s tag).1.playerGems = s.playerGems ∧
    (handleIncorrectGuess s tag).1.freeHintsCount = s.freeHintsCount ∧
    rejected (handleIncorrectGuess s tag) = false := by
  unfold handleIncorrectGuess showWarningAndRetry endGame
  simp only
  split_ifs <;> exact ⟨rfl, rfl, rfl, rfl, rfl⟩

/-- The step taken by `letterSelected` once the guess `[c]` passed validation. -/
theorem letterSelected_accepted [QtText] (s : GameController) (tag : QString) (c : Char)
    (hl : QChar.isLetter (QChar.toUpper c) = true) (hv : QChar.toUpper c ∉ "AEIOU".toList)
    (hg : QChar.toUpper c ∉ s.guessedLetters) :
    letterSelected s tag [c] =
      (if (s.phraseHandler.guessLetter (QChar.toUpper c)).2 = true then
        (if (s.phraseHandler.guessLetter (QChar.toUpper c)).1.isComplete = true then
          endGame (handleWheelReward (updateDisplayedPhrase
            { s with letterDialogOpen := false,
                     guessedLetters := s.guessedLetters.insert (QChar.toUpper c),
                     phraseHandler := (s.phraseHandler.guessLetter (QChar.toUpper c)).1 }) tag)
            "You Win!" "You guessed the full phrase!"
        else
          (handleWheelReward (updateDisplayedPhrase
            { s with letterDialogOpen := false,
                     guessedLetters := s.guessedLetters.insert (QChar.toUpper c),
                     phraseHandler := (s.phraseHandler.guessLetter (QChar.toUpper c)).1 }) tag, []))
      else
        handleIncorrectGuess
          { s with letterDialogOpen := false,
                   guessedLetters := s.guessedLetters.insert (QChar.toUpper c),
                   phraseHandler := (s.phraseHandler.guessLetter (QChar.toUpper c)).1 } tag) := by
  have hl2 : QChar.isLetter (QChar.toUpper c) = true := hl
  have hv2 : ("AEIOU".toList.contains (QChar.toUpper c)) = false := by
    rw [Bool.eq_false_iff]; intro h; exact hv (by simpa using h)
  have hg2 : (s.guessedLetters.contains (QChar.toUpper c)) = false := by
    rw [Bool.eq_false_iff]; intro h; exact hg (by simpa using h)
  unfold letterSelected
  simp only [List.length_singleton, ne_eq, not_true_eq_false, if_false, List.isEmpty_cons,
    Bool.false_eq_true, List.getD_cons_zero, hl2, Bool.not_true, hv2, hg2]
  by_cases hf : (s.phraseHandler.guessLetter (QChar.toUpper c)).2 = true
  · simp only [hf, if_true]
    have hp := (handleWheelReward_frame (updateDisplayedPhrase
            { s with letterDialogOpen := false,
                     guessedLetters := s.guessedLetters.insert (QChar.toUpper c),
                     phraseHandler := (s.phraseHandler.guessLetter (QChar.toUpper c)).1 }) tag).1
    simp only [updateDisplayedPhrase] at hp ⊢
    rw [hp]
  · rw [Bool.not_eq_true] at hf
    simp only [hf, Bool.false_eq_true, if_false]

/-- C7: a valid consonant guess (its upper-case form passes the letter test of the handler,
is no vowel and was not guessed) that misses, made with `t > 0` seconds left, sets the timer
to `max 0 (t - 5)` on the tag "-5 seconds", to `max 0 (t - 10)` on "-10 seconds" and leaves
it at `t` on any other tag; gems and free hints are unchanged; the round is ended with
"Time's Up!" iff the new timer is 0. -/
theorem letterSelected_miss_penalty [QtText] (s : GameController) (tag : QString) (c : Char)
    (ht : 0 < s.remainingTime) (hl : QChar.isLetter (QChar.toUpper c) = true)
    (hv : QChar.toUpper c ∉ "AEIOU".toList) (hg : QChar.toUpper c ∉ s.guessedLetters)
    (hmiss : (s.phraseHandler.guessLetter (QChar.toUpper c)).2 = false) :
    (letterSelected s tag [c]).1.remainingTime =
      (if tag = "-5 seconds".toList then max 0 (s.remainingTime - 5)
       else if tag = "-10 seconds".toList then max 0 (s.remainingTime - 10)
       else s.remainingTime) ∧
    (letterSelected s tag [c]).1.playerGems = s.playerGems ∧
    (letterSelected s tag [c]).1.freeHintsCount = s.freeHintsCount ∧
    (Event.question "Time's Up!" "You ran out of time! Do you want to start a new game?"
        ∈ (letterSelected s tag [c]).2 ↔ (letterSelected s tag [c]).1.remainingTime = 0) ∧
    (letterSelected s tag [c]).2 =
      (if (letterSelected s tag [c]).1.remainingTime = 0 then
        [Event.warning "Incorrect" "The letter is not in the phrase." false,
         Event.question "Time's Up!" "You ran out of time! Do you want to start a new game?"]
       else [Event.warning "Incorrect" "The letter is not in the phrase." false]) ∧
    (letterSelected s tag [c]).1.timerActive =
      (if (letterSelected s tag [c]).1.remainingTime = 0 then false else s.timerActive) := by
  rw [letterSelected_accepted s tag c hl hv hg, hmiss]
  simp only [Bool.false_eq_true, if_false]
  unfold handleIncorrectGuess showWarningAndRetry endGame
  simp only
  by_cases h5 : tag = "-5 seconds".toList
  · simp only [h5, if_true]
    by_cases hlt : s.remainingTime - 5 < 0
    · simp [hlt, max_eq_left (le_of_lt hlt)]
    · have hmax : max 0 (s.remainingTime - 5) = s.remainingTime - 5 := max_eq_right (by omega)
      by_cases hz : s.remainingTime - 5 = 0
      · simp [hlt, hmax, hz]
      · simp [hlt, hmax, hz]
  · simp only [h5, if_false]
    by_cases h10 : tag = "-10 seconds".toList
    · simp only [h10, if_true]
      by_cases hlt : s.remainingTime - 10 < 0
      · simp [hlt, max_eq_left (le_of_lt hlt)]
      · have hmax : max 0 (s.remainingTime - 10) = s.remainingTime - 10 :=
          max_eq_right (by omega)
        by_cases hz : s.remainingTime - 10 = 0
        · simp [hlt, hmax, hz]
        · simp [hlt, hmax, hz]
    · simp only [h10, if_false]
      have hn : ¬ s.remainingTime < 0 := by omega
      have hz : ¬ s.remainingTime = 0 := by omega
      simp [hn, hz]

end GameController

/-- C7 (witness): on `catRound`, with 3 seconds left, the guess `z` after "-5 seconds". -/
theorem letterSelected_miss_penalty_witness :
    (GameController.letterSelected catRound "-5 seconds".toList ['z']).1.remainingTime = 0 ∧
    (GameController.letterSelected catRound "-5 seconds".toList ['z']).1.playerGems
      = catRound.playerGems :=
  have h := GameController.letterSelected_miss_penalty catRound "-5 seconds".toList 'z'
    (by decide) (by decide) (by decide) (by decide) (by decide)
  ⟨h.1.trans (by decide), h.2.1⟩

/-! ## GameController: solving, vowels and free hints -/

namespace GameController

/-- C8: in an active round, a non-empty candidate equal to the phrase up to case reveals the
phrase and wins the round (game inactive, timer stopped, "You Won!" shown) with timer and
gems unchanged; any other non-empty candidate leaves mask and gems unchanged, sets the timer
to `max 0 (t - 5)` and makes the round active again. In a round that is not active
`solvePhrase` changes nothing. -/
theorem solvePhrase_spec [QtText] (s : GameController) (c : QString) (hact : s.gameActive = true)
    (hne : c ≠ []) :
    (QString.toUpper c = QString.toUpper s.phraseHandler.originalPhrase →
      solvePhrase s (some c) =
        ({ s with gameActive := false, timerActive := false, letterDialogOpen := false,
                  phraseHandler := s.phraseHandler.revealPhrase,
                  displayedPhrase := s.phraseHandler.revealPhrase.getDisplayedPhrase },
         [Event.wonDialog]) ∧
      (solvePhrase s (some c)).1.phraseHandler.currentLetters = s.phraseHandler.originalPhrase ∧
      (solvePhrase s (some c)).1.remainingTime = s.remainingTime ∧
      (solvePhrase s (some c)).1.playerGems = s.playerGems) ∧
    (QString.toUpper c ≠ QString.toUpper s.phraseHandler.originalPhrase →
      solvePhrase s (some c) =
        ({ s with gameActive := true, timerActive := true, letterDialogOpen := false,
                  remainingTime := max 0 (s.remainingTime - 5) },
         [Event.warning "Incorrect" "Sorry, that was not correct. Keep playing!" false])) ∧
    (∀ (u : GameController) (input : Option QString), u.gameActive = false →
      solvePhrase u input = (u, [])) := by
  have hemp : c.isEmpty = false := by
    cases c with
    | nil => exact absurd rfl hne
    | cons a t => rfl
  refine ⟨?_, ?_, ?_⟩
  · intro heq
    have e : solvePhrase s (some c) =
        ({ s with gameActive := false, timerActive := false, letterDialogOpen := false,
                  phraseHandler := s.phraseHandler.revealPhrase,
                  displayedPhrase := s.phraseHandler.revealPhrase.getDisplayedPhrase },
         [Event.wonDialog]) := by
      unfold solvePhrase
      simp only [hact, Bool.not_true, Bool.false_eq_true, if_false, hemp, heq, if_true,
        updateDisplayedPhrase]
    rw [e]
    exact ⟨rfl, rfl, rfl, rfl⟩
  · intro hneq
    unfold solvePhrase
    simp only [hact, Bool.not_true, Bool.false_eq_true, if_false, hemp, hneq,
      showWarningAndRetry]
    by_cases hlt : s.remainingTime - 5 < 0
    · simp [hlt, max_eq_left (le_of_lt hlt)]
    · simp [hlt, max_eq_right (not_lt.mp hlt)]
  · intro u input hu
    unfold solvePhrase
    simp [hu]

/-- C9: with fewer than 3 gems `buyVowel` only warns "Not enough gems": balance, guessed
letters, mask and timer are unchanged and no vowel is asked for; with at least 3 gems the
balance becomes `g - 3` and the vowel dialog opens, and no entry made in that dialog
changes the balance. -/
theorem buyVowel_gems [QtText] (s : GameController) :
    (s.playerGems.gems < 3 →
      buyVowel s =
        ({ s with gameActive := true }, [Event.warning "Not enough gems" "Need 3 gems!" false])) ∧
    (3 ≤ s.playerGems.gems →
      buyVowel s =
        ({ s with gameActive := true, playerGems := { gems := s.playerGems.gems - 3 } },
         [Event.vowelDialog])) ∧
    (∀ (u : GameController) (guess : QString),
      (vowelSelected u guess).1.playerGems = u.playerGems) := by
  refine ⟨?_, ?_, ?_⟩
  · intro h
    unfold buyVowel
    simp only [PlayerGems.getGems, h, if_true, showWarningAndRetry]
  · intro h
    unfold buyVowel
    have h2 : ¬ s.playerGems.gems < 3 := not_lt.mpr h
    simp only [PlayerGems.getGems, h2, if_false, PlayerGems.spendGems, ge_iff_le, h, if_true]
  · intro u guess
    unfold vowelSelected showWarningAndRetry updateDisplayedPhrase
    simp only
    split_ifs <;> rfl

/-- C10: with a free hint in the bank and `u < 3` hints used, `buyHint` answered Yes shows
`hints[u]`, takes one free hint, counts one more used hint and leaves the gems unchanged. -/
theorem buyHint_free (s : GameController) (hint : String)
    (hf : 0 < s.freeHintsCount) (h0 : 0 ≤ s.currentHintIndex) (h3 : s.currentHintIndex < 3)
    (hh : s.hintsForCurrentPhrase[s.currentHintIndex.toNat]? = some hint) :
    buyHint s true =
      some ({ s with freeHintsCount := s.freeHintsCount - 1,
                     currentHintIndex := s.currentHintIndex + 1, gameActive := true },
            [Event.question "Use Free Hint" "You have a free hint! Do you want to use it?",
             Event.warning "Hint" hint false]) ∧
    ∀ t evs, buyHint s true = some (t, evs) →
      hintShown evs = some hint ∧ t.freeHintsCount = s.freeHintsCount - 1 ∧
      t.currentHintIndex = s.currentHintIndex + 1 ∧ t.playerGems = s.playerGems := by
  have e : buyHint s true =
      some ({ s with freeHintsCount := s.freeHintsCount - 1,
                     currentHintIndex := s.currentHintIndex + 1, gameActive := true },
            [Event.question "Use Free Hint" "You have a free hint! Do you want to use it?",
             Event.warning "Hint" hint false]) := by
    unfold buyHint
    have hn : ¬ (3 : Int) ≤ s.currentHintIndex := not_le.mpr h3
    simp only [maxHints, ge_iff_le, hn, if_false, gt_iff_lt, hf, if_true, currentHint, h0, hh,
      showWarningAndRetry]
  refine ⟨e, ?_⟩
  intro t evs ht
  rw [e] at ht
  simp only [Option.some.injEq, Prod.mk.injEq] at ht
  obtain ⟨rfl, rfl⟩ := ht
  exact ⟨by simp [hintShown], rfl, rfl, rfl⟩

end GameController

/-- C8 (witness): "cat" solves the phrase `CAT` of `catRound`. -/
theorem solvePhrase_spec_witness :
    (GameController.solvePhrase catRound (some "cat".toList)).2 = [Event.wonDialog] ∧
    (GameController.solvePhrase catRound (some "cat".toList)).1.phraseHandler.currentLetters
      = "CAT".toList ∧
    (GameController.solvePhrase catRound (some "dog".toList)).1.remainingTime = 0 :=
  have h := GameController.solvePhrase_spec catRound "cat".toList rfl (by decide)
  have h2 := GameController.solvePhrase_spec catRound "dog".toList rfl (by decide)
  ⟨by rw [(h.1 (by decide)).1], (h.1 (by decide)).2.1, by rw [h2.2.1 (by decide)]; decide⟩

/-- C10 (witness): one free hint and no hint used yet. -/
theorem buyHint_free_witness :
    GameController.buyHint { catRound with freeHintsCount := 1 } true =
      some ({ catRound with freeHintsCount := 0, currentHintIndex := 1, gameActive := true },
            [Event.question "Use Free Hint" "You have a free hint! Do you want to use it?",
             Event.warning "Hint" "It purrs" false]) :=
  (GameController.buyHint_free { catRound with freeHintsCount := 1 } "It purrs"
    (by decide) (by decide) (by decide) (by decide)).1

/-! ## PhraseHandler: repeated guesses and the displayed phrase -/

/-- C18: on every handler reached from the constructor, a second `guessLetter(l)` right
after the first leaves the handler as the first left it, hence the same mask, displayed
phrase and `isComplete` value, and returns the same boolean. -/
theorem guessLetter_twice [QtText] (P : QString) (ops : List PhraseOp) (l : Char) :
    (((applyOps (PhraseHandler.new P) ops).guessLetter l).1.guessLetter l).1
      = ((applyOps (PhraseHandler.new P) ops).guessLetter l).1 ∧
    (((applyOps (PhraseHandler.new P) ops).guessLetter l).1.guessLetter l).2
      = ((applyOps (PhraseHandler.new P) ops).guessLetter l).2 ∧
    (((applyOps (PhraseHandler.new P) ops).guessLetter l).1.guessLetter l).1.currentLetters
      = ((applyOps (PhraseHandler.new P) ops).guessLetter l).1.currentLetters ∧
    (((applyOps (PhraseHandler.new P) ops).guessLetter l).1.guessLetter l).1.getDisplayedPhrase
      = ((applyOps (PhraseHandler.new P) ops).guessLetter l).1.getDisplayedPhrase ∧
    (((applyOps (PhraseHandler.new P) ops).guessLetter l).1.guessLetter l).1.isComplete
      = ((applyOps (PhraseHandler.new P) ops).guessLetter l).1.isComplete := by
  have hinv := applyOps_inv P ops
  generalize applyOps (PhraseHandler.new P) ops = h at hinv
  have hlen : h.currentLetters.length = h.originalPhrase.length := by rw [hinv.1, hinv.2]
  have ho : (h.guessLetter l).1.originalPhrase = h.originalPhrase :=
    PhraseHandler.guessLetter_originalPhrase h l
  have hlen2 : (h.guessLetter l).1.currentLetters.length
      = (h.guessLetter l).1.originalPhrase.length := by
    rw [PhraseHandler.guessLetter_length, ho, hlen]
  have hstate : ((h.guessLetter l).1.guessLetter l).1 = (h.guessLetter l).1 := by
    have e1 : ((h.guessLetter l).1.guessLetter l).1.originalPhrase
        = (h.guessLetter l).1.originalPhrase := PhraseHandler.guessLetter_originalPhrase _ l
    have e2 : ((h.guessLetter l).1.guessLetter l).1.currentLetters
        = (h.guessLetter l).1.currentLetters := by
      apply List.ext_getElem?
      intro j
      rw [PhraseHandler.guessLetter_getElem? _ l hlen2 j, ho,
        PhraseHandler.guessLetter_getElem? h l hlen j]
      cases h.originalPhrase[j]? with
      | none => rfl
      | some c =>
        simp only
        by_cases hm : QChar.toUpper c = QChar.toUpper l
        · simp [hm]
        · simp [hm]
    cases hx : (h.guessLetter l).1.guessLetter l with
    | mk a b =>
      rw [hx] at e1 e2
      cases a
      cases hy : (h.guessLetter l).1
      rw [hy] at e1 e2
      simp only at e1 e2 ⊢
      rw [e1, e2]
  have hfound : ((h.guessLetter l).1.guessLetter l).2 = (h.guessLetter l).2 := by
    rw [Bool.eq_iff_iff, PhraseHandler.guessLetter_found, PhraseHandler.guessLetter_found, ho]
  exact ⟨hstate, hfound, by rw [hstate], by rw [hstate], by rw [hstate]⟩

theorem slotOf_length (c : Char) : (slotOf c).length = 3 := by
  unfold slotOf; split <;> rfl

theorem displayOf_append (l : QString) (c : Char) :
    displayOf (l ++ [c]) = displayOf l ++ slotOf c := by
  induction l with
  | nil => simp [displayOf]
  | cons a t ih => simp [displayOf, ih]

theorem displayOf_length (l : QString) : (displayOf l).length = 3 * l.length := by
  induction l with
  | nil => rfl
  | cons a t ih =>
    simp only [displayOf, List.length_append, slotOf_length, ih, List.length_cons]
    omega

theorem slot_displayOf (l : QString) (i : Nat) (c : Char) (h : l[i]? = some c) :
    slot (displayOf l) i = slotOf c := by
  induction l generalizing i with
  | nil => simp at h
  | cons a t ih =>
    cases i with
    | zero =>
      simp only [List.getElem?_cons_zero, Option.some.injEq] at h
      subst h
      unfold slot
      simp only [displayOf, Nat.mul_zero, List.drop_zero]
      exact List.take_left' (slotOf_length a)
    | succ k =>
      simp only [List.getElem?_cons_succ] at h
      have := ih k h
      unfold slot at this ⊢
      rw [← this]
      simp only [displayOf]
      have e : 3 * (k + 1) = (slotOf a).length + 3 * k := by rw [slotOf_length]; omega
      rw [e, List.drop_append]

theorem getDisplayedPhrase_aux (cur : QString) (n : Nat) (hn : n ≤ cur.length) :
    (List.range n).foldl
        (fun spaced i =>
          if cur.getD i ' ' = ' ' then spaced ++ [' ', ' ', ' ']
          else spaced ++ [cur.getD i ' ', ' ', ' ']) []
      = displayOf (cur.take n) := by
  induction n with
  | zero => simp [displayOf]
  | succ n ih =>
    have hlt : n < cur.length := hn
    rw [List.range_succ, List.foldl_append, ih (Nat.le_of_lt hlt)]
    have ht : cur.take (n + 1) = cur.take n ++ [cur[n]] := by
      rw [List.take_succ, List.getElem?_eq_getElem hlt]; rfl
    have hg : cur.getD n ' ' = cur[n] := by simp [List.getD, List.getElem?_eq_getElem hlt]
    rw [ht, displayOf_append]
    simp only [List.foldl_cons, List.foldl_nil, hg, slotOf]
    split <;> rfl

theorem getDisplayedPhrase_eq (h : PhraseHandler) :
    h.getDisplayedPhrase = displayOf h.currentLetters := by
  unfold PhraseHandler.getDisplayedPhrase
  rw [getDisplayedPhrase_aux _ _ (le_refl _), List.take_length]

theorem maskChar_cases [QtText] (ops : List PhraseOp) (c : Char) :
    maskChar ops c = c ∨ (c ≠ ' ' ∧ maskChar ops c = '_') := by
  unfold maskChar
  by_cases h1 : c = ' '
  · left; simp [h1]
  · simp only [h1, if_false]
    split
    · exact Or.inl rfl
    · exact Or.inr ⟨h1, rfl⟩

/-- C14: on every handler reached from the constructor of a phrase of length `n`, the mask
has length `n`, the displayed phrase has length `3 n`, and slot `i` is three blanks for a
blank of the phrase, an underscore and two blanks for a hidden position and the phrase
character and two blanks for a revealed one; a further call never changes the length. -/
theorem getDisplayedPhrase_slots [QtText] (P : QString) (ops : List PhraseOp) :
    (applyOps (PhraseHandler.new P) ops).currentLetters.length = P.length ∧
    (applyOps (PhraseHandler.new P) ops).getDisplayedPhrase.length = 3 * P.length ∧
    (∀ (i : Nat) (c : Char), P[i]? = some c →
      ((applyOps (PhraseHandler.new P) ops).currentLetters[i]? = some c ∨
        (c ≠ ' ' ∧ (applyOps (PhraseHandler.new P) ops).currentLetters[i]? = some '_')) ∧
      (c = ' ' →
        slot (applyOps (PhraseHandler.new P) ops).getDisplayedPhrase i = [' ', ' ', ' ']) ∧
      (c ≠ ' ' → (applyOps (PhraseHandler.new P) ops).currentLetters[i]? = some '_' →
        slot (applyOps (PhraseHandler.new P) ops).getDisplayedPhrase i = ['_', ' ', ' ']) ∧
      (c ≠ ' ' → (applyOps (PhraseHandler.new P) ops).currentLetters[i]? = some c →
        slot (applyOps (PhraseHandler.new P) ops).getDisplayedPhrase i = [c, ' ', ' '])) ∧
    (∀ op : PhraseOp,
      (PhraseOp.apply (applyOps (PhraseHandler.new P) ops) op).getDisplayedPhrase.length
        = (applyOps (PhraseHandler.new P) ops).getDisplayedPhrase.length) := by
  have hinv := applyOps_inv P ops
  have hcur := applyOps_currentLetters P ops
  have hlenD : ∀ ops2 : List PhraseOp,
      (applyOps (PhraseHandler.new P) ops2).getDisplayedPhrase.length = 3 * P.length := by
    intro ops2
    rw [getDisplayedPhrase_eq, displayOf_length, (applyOps_inv P ops2).2]
  refine ⟨hinv.2, hlenD ops, ?_, ?_⟩
  · intro i c hc
    have hci : (applyOps (PhraseHandler.new P) ops).currentLetters[i]?
        = some (maskChar ops c) := by
      rw [hcur, List.getElem?_map, hc]; rfl
    refine ⟨?_, ?_, ?_, ?_⟩
    · rcases maskChar_cases ops c with h1 | ⟨h1, h2⟩
      · left; rw [hci, h1]
      · right; exact ⟨h1, by rw [hci, h2]⟩
    · intro hsp
      rw [getDisplayedPhrase_eq, slot_displayOf _ i _ hci]
      subst hsp
      simp [maskChar, slotOf]
    · intro _ hhid
      rw [getDisplayedPhrase_eq, slot_displayOf _ i _ hhid]
      simp [slotOf]
    · intro hne hrev
      rw [getDisplayedPhrase_eq, slot_displayOf _ i _ hrev]
      simp [slotOf, hne]
  · intro op
    rw [← applyOps_snoc, hlenD, hlenD]

namespace GameController

/-- C13: after `startNewGame` the guessed letters are empty, the free hints, the used hints
and the gems are 0, the timer is 120 for difficulty 0 and 180 otherwise, and the mask of the
new phrase shows a blank at every blank and an underscore everywhere else. -/
theorem startNewGame_resets (prior : GameController) (p : Phrase) :
    (startNewGame prior p).guessedLetters = [] ∧
    (startNewGame prior p).freeHintsCount = 0 ∧
    (startNewGame prior p).currentHintIndex = 0 ∧
    (startNewGame prior p).playerGems.gems = 0 ∧
    (startNewGame prior p).remainingTime = (if prior.difficulty = 0 then 120 else 180) ∧
    (startNewGame prior p).phraseHandler.originalPhrase = p.text ∧
    (startNewGame prior p).hintsForCurrentPhrase = p.hints ∧
    (startNewGame prior p).phraseHandler.currentLetters.length = p.text.length ∧
    (∀ (i : Nat) (c : Char), p.text[i]? = some c →
      (c = ' ' → (startNewGame prior p).phraseHandler.currentLetters[i]? = some ' ') ∧
      (c ≠ ' ' → (startNewGame prior p).phraseHandler.currentLetters[i]? = some '_')) := by
  have hph : (startNewGame prior p).phraseHandler = PhraseHandler.new p.text := rfl
  refine ⟨rfl, rfl, rfl, rfl, rfl, rfl, rfl, ?_, ?_⟩
  · rw [hph, PhraseHandler.new_currentLetters, List.length_map]
  · intro i c hc
    rw [hph, PhraseHandler.new_currentLetters, List.getElem?_map, hc]
    constructor
    · intro h; simp [h]
    · intro h; simp [h]

end GameController

/-! ## GameController: sequences of operations -/

namespace GameController

theorem handleWheelReward_hints (s : GameController) (tag : QString) :
    (handleWheelReward s tag).currentHintIndex = s.currentHintIndex ∧
    (handleWheelReward s tag).hintsForCurrentPhrase = s.hintsForCurrentPhrase := by
  unfold handleWheelReward
  split_ifs <;> exact ⟨rfl, rfl⟩

theorem handleIncorrectGuess_hints (s : GameController) (tag : QString) :
    (handleIncorrectGuess s tag).1.currentHintIndex = s.currentHintIndex ∧
    (handleIncorrectGuess s tag).1.hintsForCurrentPhrase = s.hintsForCurrentPhrase := by
  unfold handleIncorrectGuess showWarningAndRetry endGame
  simp only
  split_ifs <;> exact ⟨rfl, rfl⟩

theorem handleIncorrectGuess_nonneg (s : GameController) (tag : QString)
    (h : 0 ≤ s.remainingTime) : 0 ≤ (handleIncorrectGuess s tag).1.remainingTime := by
  unfold handleIncorrectGuess showWarningAndRetry endGame
  simp only
  split_ifs <;> simp only at * <;> omega

theorem letterSelected_frame [QtText] (s : GameController) (tag guess : QString) :
    (letterSelected s tag guess).1.currentHintIndex = s.currentHintIndex ∧
    (letterSelected s tag guess).1.hintsForCurrentPhrase = s.hintsForCurrentPhrase ∧
    (0 ≤ s.remainingTime → 0 ≤ (letterSelected s tag guess).1.remainingTime) := by
  unfold letterSelected
  simp only [showWarningAndRetry]
  split_ifs <;> first
    | exact ⟨rfl, rfl, id⟩
    | exact ⟨(handleWheelReward_hints _ tag).1, (handleWheelReward_hints _ tag).2,
        fun h => (handleWheelReward_frame _ tag).2.2.1.symm ▸ h⟩
    | exact ⟨(handleIncorrectGuess_hints _ tag).1, (handleIncorrectGuess_hints _ tag).2,
        fun h => handleIncorrectGuess_nonneg _ tag h⟩

theorem vowelSelected_frame [QtText] (s : GameController) (guess : QString) :
    (vowelSelected s guess).1.currentHintIndex = s.currentHintIndex ∧
    (vowelSelected s guess).1.hintsForCurrentPhrase = s.hintsForCurrentPhrase ∧
    (vowelSelected s guess).1.remainingTime = s.remainingTime ∧
    (vowelSelected s guess).1.playerGems = s.playerGems ∧
    (vowelSelected s guess).1.timerActive = s.timerActive ∧
    (vowelSelected s guess).1.gameActive = s.gameActive := by
  unfold vowelSelected showWarningAndRetry updateDisplayedPhrase
  simp only
  split_ifs <;> exact ⟨rfl, rfl, rfl, rfl, rfl, rfl⟩

theorem updateTimer_frame (s : GameController) :
    (updateTimer s).1.currentHintIndex = s.currentHintIndex ∧
    (updateTimer s).1.hintsForCurrentPhrase = s.hintsForCurrentPhrase ∧
    (updateTimer s).1.playerGems = s.playerGems ∧
    (0 ≤ s.remainingTime → 0 ≤ (updateTimer s).1.remainingTime) := by
  unfold updateTimer updateDisplayedPhrase
  simp only
  split_ifs with h
  · exact ⟨rfl, rfl, rfl, id⟩
  · exact ⟨rfl, rfl, rfl, fun _ => by simp only; omega⟩

theorem startLetterGuessing_frame (s : GameController) (tag : QString) :
    (startLetterGuessing s tag).1.currentHintIndex = s.currentHintIndex ∧
    (startLetterGuessing s tag).1.hintsForCurrentPhrase = s.hintsForCurrentPhrase ∧
    (startLetterGuessing s tag).1.playerGems = s.playerGems ∧
    (startLetterGuessing s tag).1.remainingTime = s.remainingTime := by
  unfold startLetterGuessing askForLetter
  simp only
  split_ifs <;> exact ⟨rfl, rfl, rfl, rfl⟩

theorem buyVowel_frame (s : GameController) :
    (buyVowel s).1.currentHintIndex = s.currentHintIndex ∧
    (buyVowel s).1.hintsForCurrentPhrase = s.hintsForCurrentPhrase ∧
    (buyVowel s).1.remainingTime = s.remainingTime ∧
    ((buyVowel s).1.playerGems.gems = s.playerGems.gems ∨
      (3 ≤ s.playerGems.gems ∧ (buyVowel s).1.playerGems.gems = s.playerGems.gems - 3)) := by
  by_cases h : s.playerGems.gems < 3
  · have e : buyVowel s =
        ({ s with gameActive := true },
         [Event.warning "Not enough gems" "Need 3 gems!" false]) := by
      unfold buyVowel
      simp only [PlayerGems.getGems, h, if_true, showWarningAndRetry]
    rw [e]
    exact ⟨rfl, rfl, rfl, Or.inl rfl⟩
  · have h3 : 3 ≤ s.playerGems.gems := not_lt.mp h
    have e : buyVowel s =
        ({ s with gameActive := true, playerGems := { gems := s.playerGems.gems - 3 } },
         [Event.vowelDialog]) := by
      unfold buyVowel
      simp only [PlayerGems.getGems, h, if_false, PlayerGems.spendGems, ge_iff_le, h3, if_true]
    rw [e]
    exact ⟨rfl, rfl, rfl, Or.inr ⟨h3, rfl⟩⟩

theorem solvePhrase_frame [QtText] (s : GameController) (input : Option QString) :
    (solvePhrase s input).1.currentHintIndex = s.currentHintIndex ∧
    (solvePhrase s input).1.hintsForCurrentPhrase = s.hintsForCurrentPhrase ∧
    (solvePhrase s input).1.playerGems = s.playerGems ∧
    (0 ≤ s.remainingTime → 0 ≤ (solvePhrase s input).1.remainingTime) := by
  unfold solvePhrase showWarningAndRetry updateDisplayedPhrase
  simp only
  cases input with
  | none => split_ifs <;> exact ⟨rfl, rfl, rfl, id⟩
  | some c =>
    simp only
    split_ifs
    · exact ⟨rfl, rfl, rfl, id⟩
    · exact ⟨rfl, rfl, rfl, id⟩
    · exact ⟨rfl, rfl, rfl, id⟩
    · exact ⟨rfl, rfl, rfl, fun _ => le_refl _⟩
    · exact ⟨rfl, rfl, rfl, fun _ => by simp only; omega⟩

theorem buyHint_frame (s : GameController) (reply : Bool) (r : Step)
    (h : buyHint s reply = some r) :
    r.1.remainingTime = s.remainingTime ∧
    r.1.hintsForCurrentPhrase = s.hintsForCurrentPhrase ∧
    (r.1.currentHintIndex = s.currentHintIndex ∨
      (s.currentHintIndex < 3 ∧ r.1.currentHintIndex = s.currentHintIndex + 1)) ∧
    (r.1.playerGems.gems = s.playerGems.gems ∨
      (5 ≤ s.playerGems.gems ∧ r.1.playerGems.gems = s.playerGems.gems - 5)) := by
  unfold buyHint at h
  simp only [maxHints, showWarningAndRetry, ge_iff_le, gt_iff_lt, PlayerGems.getGems,
    PlayerGems.spendGems] at h
  by_cases h3 : 3 ≤ s.currentHintIndex
  · rw [if_pos h3] at h
    simp only [Option.some.injEq] at h
    subst h
    exact ⟨rfl, rfl, Or.inl rfl, Or.inl rfl⟩
  · rw [if_neg h3] at h
    have hlt : s.currentHintIndex < 3 := not_le.mp h3
    by_cases hf : 0 < s.freeHintsCount
    · rw [if_pos hf] at h
      cases reply with
      | true =>
        simp only [if_true] at h
        split at h
        · exact absurd h (by simp)
        · simp only [Option.some.injEq] at h
          subst h
          exact ⟨rfl, rfl, Or.inr ⟨hlt, rfl⟩, Or.inl rfl⟩
      | false =>
        simp only [Bool.false_eq_true, if_false, Option.some.injEq] at h
        subst h
        exact ⟨rfl, rfl, Or.inl rfl, Or.inl rfl⟩
    · rw [if_neg hf] at h
      by_cases hg : s.playerGems.gems < 5
      · rw [if_pos hg] at h
        simp only [Option.some.injEq] at h
        subst h
        exact ⟨rfl, rfl, Or.inl rfl, Or.inl rfl⟩
      · rw [if_neg hg] at h
        have h5 : 5 ≤ s.playerGems.gems := not_lt.mp hg
        simp only [h5, if_true] at h
        split at h
        · exact absurd h (by simp)
        · simp only [Option.some.injEq] at h
          subst h
          exact ⟨rfl, rfl, Or.inr ⟨hlt, rfl⟩, Or.inr ⟨h5, rfl⟩⟩

theorem handleWheelReward_gemTag (s : GameController) (tag : QString) (n : Int)
    (hc : QString.contains tag "gem".toList = true)
    (hn : QString.toInt (QString.splitFirst tag) = n) :
    handleWheelReward s tag = { s with playerGems := { gems := s.playerGems.gems + n } } := by
  unfold handleWheelReward
  rw [if_pos hc]
  simp only [hn, PlayerGems.addGems]

theorem handleWheelReward_freeHint (s : GameController) :
    handleWheelReward s "Free Hint".toList
      = { s with freeHintsCount := s.freeHintsCount + 1 } := by
  unfold handleWheelReward
  rw [if_neg (by decide), if_pos rfl]

theorem handleWheelReward_noGem (s : GameController) (tag : QString)
    (hc : QString.contains tag "gem".toList = false) (hf : tag ≠ "Free Hint".toList) :
    handleWheelReward s tag = s := by
  unfold handleWheelReward
  rw [if_neg (by rw [hc]; exact Bool.false_ne_true), if_neg hf]

theorem handleWheelReward_gems_le (s : GameController) (tag : QString) (hc : tag ∈ segments) :
    s.playerGems.gems ≤ (handleWheelReward s tag).playerGems.gems := by
  simp only [segments, List.mem_cons, List.mem_singleton, List.not_mem_nil, or_false] at hc
  rcases hc with h | h | h | h | h | h | h | h <;> subst h
  · rw [handleWheelReward_gemTag s _ 2 (by decide) (by decide)]; simp
  · rw [handleWheelReward_noGem s _ (by decide) (by decide)]
  · rw [handleWheelReward_gemTag s _ 3 (by decide) (by decide)]; simp
  · rw [handleWheelReward_freeHint]
  · rw [handleWheelReward_gemTag s _ 1 (by decide) (by decide)]; simp
  · rw [handleWheelReward_noGem s _ (by decide) (by decide)]
  · rw [handleWheelReward_gemTag s _ 2 (by decide) (by decide)]; simp
  · rw [handleWheelReward_gemTag s _ 4 (by decide) (by decide)]; simp

theorem letterSelected_gems_le [QtText] (s : GameController) (tag guess : QString)
    (hc : tag ∈ segments) :
    s.playerGems.gems ≤ (letterSelected s tag guess).1.playerGems.gems := by
  unfold letterSelected
  simp only [showWarningAndRetry]
  split_ifs <;> first
    | exact le_refl _
    | exact handleWheelReward_gems_le _ tag hc
    | (rw [(handleIncorrectGuess_frame _ tag).2.2.1]; try exact le_refl _)

end GameController

theorem runStates_invariant [QtText] (I : GameController → Prop) (ok : Op → Prop)
    (hstep : ∀ (s : GameController) (op : Op) (r : Step),
      I s → ok op → Op.apply s op = some r → I r.1)
    (ops : List Op) :
    ∀ s : GameController, I s → (∀ op ∈ ops, ok op) → ∀ t ∈ runStates s ops, I t := by
  induction ops with
  | nil => intro s _ _ t ht; simp [runStates] at ht
  | cons op rest ih =>
    intro s hs hok t ht
    unfold runStates at ht
    cases hr : Op.apply s op with
    | none => rw [hr] at ht; simp at ht
    | some r =>
      rw [hr] at ht
      simp only [List.mem_cons] at ht
      have hr1 : I r.1 := hstep s op r hs (hok op (List.mem_cons_self _ _)) hr
      rcases ht with h | h
      · rw [h]; exact hr1
      · exact ih r.1 hr1 (fun o ho => hok o (List.mem_cons_of_mem _ ho)) t h

theorem runStates_length [QtText] (I : GameController → Prop) (ok : Op → Prop)
    (hstep : ∀ (s : GameController) (op : Op), I s → ok op →
      ∃ r, Op.apply s op = some r ∧ I r.1)
    (ops : List Op) :
    ∀ s : GameController, I s → (∀ op ∈ ops, ok op) →
      (runStates s ops).length = ops.length := by
  induction ops with
  | nil => intro s _ _; rfl
  | cons op rest ih =>
    intro s hs hok
    obtain ⟨r, hr, hI⟩ := hstep s op hs (hok op (List.mem_cons_self _ _))
    unfold runStates
    rw [hr]
    simp only [List.length_cons]
    rw [ih r.1 hI (fun o ho => hok o (List.mem_cons_of_mem _ ho))]

theorem apply_hintsInRange [QtText] (s : GameController) (op : Op) (hs : hintsInRange s)
    (hok : Op.enoughHints op = true) :
    ∃ r, Op.apply s op = some r ∧ hintsInRange r.1 := by
  obtain ⟨h0, h3, hl⟩ := hs
  cases op with
  | tick =>
    refine ⟨_, rfl, ?_⟩
    have f := GameController.updateTimer_frame s
    exact ⟨f.1 ▸ h0, f.1 ▸ h3, f.2.1 ▸ hl⟩
  | spinLanded tag =>
    refine ⟨_, rfl, ?_⟩
    have f := GameController.startLetterGuessing_frame s tag
    exact ⟨f.1 ▸ h0, f.1 ▸ h3, f.2.1 ▸ hl⟩
  | letter tag guess =>
    refine ⟨_, rfl, ?_⟩
    have f := GameController.letterSelected_frame s tag guess
    exact ⟨f.1 ▸ h0, f.1 ▸ h3, f.2.1 ▸ hl⟩
  | buyVowel =>
    refine ⟨_, rfl, ?_⟩
    have f := GameController.buyVowel_frame s
    exact ⟨f.1 ▸ h0, f.1 ▸ h3, f.2.1 ▸ hl⟩
  | vowel guess =>
    refine ⟨_, rfl, ?_⟩
    have f := GameController.vowelSelected_frame s guess
    exact ⟨f.1 ▸ h0, f.1 ▸ h3, f.2.1 ▸ hl⟩
  | buyHint reply =>
    have hlen : s.currentHintIndex.toNat < s.hintsForCurrentPhrase.length
        ∨ 3 ≤ s.currentHintIndex := by
      by_cases h : 3 ≤ s.currentHintIndex
      · exact Or.inr h
      · left; omega
    obtain ⟨t, evs, hb, hh, _⟩ := GameController.buyHint_step s reply h0 hlen
    refine ⟨(t, evs), hb, ?_⟩
    have f := GameController.buyHint_frame s reply (t, evs) hb
    refine ⟨?_, ?_, ?_⟩
    · rcases f.2.2.1 with e | ⟨_, e⟩ <;> simp only at e <;> omega
    · rcases f.2.2.1 with e | ⟨_, e⟩ <;> simp only at e <;> omega
    · simp only; rw [hh]; exact hl
  | solvePhrase input =>
    refine ⟨_, rfl, ?_⟩
    have f := GameController.solvePhrase_frame s input
    exact ⟨f.1 ▸ h0, f.1 ▸ h3, f.2.1 ▸ hl⟩
  | startNewGame p =>
    refine ⟨_, rfl, ?_⟩
    simp only [Op.enoughHints, decide_eq_true_eq] at hok
    exact ⟨le_refl _, (by decide : (0 : Int) ≤ 3), hok⟩


theorem apply_remainingTime [QtText] (s : GameController) (op : Op) (r : Step)
    (h : 0 ≤ s.remainingTime) (hr : Op.apply s op = some r) : 0 ≤ r.1.remainingTime := by
  cases op with
  | tick =>
    simp only [Op.apply, Option.some.injEq] at hr; subst hr
    exact (GameController.updateTimer_frame s).2.2.2 h
  | spinLanded tag =>
    simp only [Op.apply, Option.some.injEq] at hr; subst hr
    rw [(GameController.startLetterGuessing_frame s tag).2.2.2]; exact h
  | letter tag guess =>
    simp only [Op.apply, Option.some.injEq] at hr; subst hr
    exact (GameController.letterSelected_frame s tag guess).2.2 h
  | buyVowel =>
    simp only [Op.apply, Option.some.injEq] at hr; subst hr
    rw [(GameController.buyVowel_frame s).2.2.1]; exact h
  | vowel guess =>
    simp only [Op.apply, Option.some.injEq] at hr; subst hr
    rw [(GameController.vowelSelected_frame s guess).2.2.1]; exact h
  | buyHint reply =>
    simp only [Op.apply] at hr
    rw [(GameController.buyHint_frame s reply r hr).1]; exact h
  | solvePhrase input =>
    simp only [Op.apply, Option.some.injEq] at hr; subst hr
    exact (GameController.solvePhrase_frame s input).2.2.2 h
  | startNewGame p =>
    simp only [Op.apply, Option.some.injEq] at hr; subst hr
    show (0 : Int) ≤ if _ then 120 else 180
    split <;> decide

theorem apply_gems [QtText] (s : GameController) (op : Op) (r : Step)
    (hc : Op.configured op = true) (hr : Op.apply s op = some r) :
    s.playerGems.gems ≤ r.1.playerGems.gems ∨
    (op = Op.buyVowel ∧ 3 ≤ s.playerGems.gems ∧ r.1.playerGems.gems = s.playerGems.gems - 3) ∨
    (∃ reply, op = Op.buyHint reply ∧ 5 ≤ s.playerGems.gems ∧
      r.1.playerGems.gems = s.playerGems.gems - 5) ∨
    (∃ p, op = Op.startNewGame p ∧ r.1.playerGems.gems = 0) := by
  cases op with
  | tick =>
    simp only [Op.apply, Option.some.injEq] at hr; subst hr
    left; rw [(GameController.updateTimer_frame s).2.2.1]
  | spinLanded tag =>
    simp only [Op.apply, Option.some.injEq] at hr; subst hr
    left; rw [(GameController.startLetterGuessing_frame s tag).2.2.1]
  | letter tag guess =>
    simp only [Op.apply, Option.some.injEq] at hr; subst hr
    left
    have hm : tag ∈ segments := by
      simp only [Op.configured] at hc
      exact List.elem_iff.mp hc
    exact GameController.letterSelected_gems_le s tag guess hm
  | buyVowel =>
    simp only [Op.apply, Option.some.injEq] at hr; subst hr
    rcases (GameController.buyVowel_frame s).2.2.2 with e | ⟨h3, e⟩
    · left; rw [e]
    · right; left; exact ⟨rfl, h3, e⟩
  | vowel guess =>
    simp only [Op.apply, Option.some.injEq] at hr; subst hr
    left; rw [(GameController.vowelSelected_frame s guess).2.2.2.1]
  | buyHint reply =>
    simp only [Op.apply] at hr
    rcases (GameController.buyHint_frame s reply r hr).2.2.2 with e | ⟨h5, e⟩
    · left; rw [e]
    · right; right; left; exact ⟨reply, rfl, h5, e⟩
  | solvePhrase input =>
    simp only [Op.apply, Option.some.injEq] at hr; subst hr
    left; rw [(GameController.solvePhrase_frame s input).2.2.1]
  | startNewGame p =>
    simp only [Op.apply, Option.some.injEq] at hr; subst hr
    right; right; right; exact ⟨p, rfl, rfl⟩

/-- C11: from a state with `remainingTime >= 0`, as a new round is, `remainingTime` is
`>= 0` after every operation of every sequence of round operations; and when the phrases
have at least 3 hints every operation of the sequence has a result. -/
theorem remainingTime_nonneg [QtText] (start : GameController) (h0 : 0 ≤ start.remainingTime)
    (ops : List Op) :
    (∀ t ∈ runStates start ops, 0 ≤ t.remainingTime) ∧
    (hintsInRange start → (∀ op ∈ ops, Op.enoughHints op = true) →
      (runStates start ops).length = ops.length) ∧
    (∀ (prior : GameController) (p : Phrase),
      0 ≤ (GameController.startNewGame prior p).remainingTime) := by
  refine ⟨?_, ?_, ?_⟩
  · exact runStates_invariant (fun s => 0 ≤ s.remainingTime) (fun _ => True)
      (fun s op r hs _ hr => apply_remainingTime s op r hs hr) ops start h0
      (fun _ _ => trivial)
  · intro hh hok
    exact runStates_length hintsInRange (fun op => Op.enoughHints op = true)
      (fun s op hs ho => apply_hintsInRange s op hs ho) ops start hh hok
  · intro prior p
    show (0 : Int) ≤ if _ then 120 else 180
    split <;> decide

/-- C12: from a balance `>= 0`, as the balance 0 of a new game is, the gem balance is
`>= 0` after every operation of every sequence whose wheel tags are among the 8 configured
ones; an operation lowers the balance only by 3 (`buyVowel`) or by 5 (`buyHint`), in a state
whose balance is at least that cost, or resets it to 0 (`startNewGame`). -/
theorem gems_nonneg [QtText] (start : GameController) (h0 : 0 ≤ start.playerGems.gems)
    (ops : List Op) (hc : ∀ op ∈ ops, Op.configured op = true) :
    (∀ t ∈ runStates start ops, 0 ≤ t.playerGems.gems) ∧
    (∀ (s : GameController) (op : Op) (r : Step), Op.configured op = true →
      Op.apply s op = some r →
      s.playerGems.gems ≤ r.1.playerGems.gems ∨
      (op = Op.buyVowel ∧ 3 ≤ s.playerGems.gems ∧
        r.1.playerGems.gems = s.playerGems.gems - 3) ∨
      (∃ reply, op = Op.buyHint reply ∧ 5 ≤ s.playerGems.gems ∧
        r.1.playerGems.gems = s.playerGems.gems - 5) ∨
      (∃ p, op = Op.startNewGame p ∧ r.1.playerGems.gems = 0)) ∧
    (∀ (prior : GameController) (p : Phrase),
      (GameController.startNewGame prior p).playerGems.gems = 0) := by
  refine ⟨?_, apply_gems, fun _ _ => rfl⟩
  refine runStates_invariant (fun s => 0 ≤ s.playerGems.gems)
    (fun op => Op.configured op = true) ?_ ops start h0 hc
  intro s op r hs ho hr
  rcases apply_gems s op r ho hr with h | ⟨_, h3, e⟩ | ⟨_, _, h5, e⟩ | ⟨_, _, e⟩
  · exact le_trans hs h
  · rw [e]; omega
  · rw [e]; omega
  · rw [e]

namespace GameController

/-- C15: `handleWheelReward` on the 8 configured tags: a gem tag adds the number it starts
with (2, 3, 1, 2, 4) to the gems and changes nothing else, "Free Hint" adds 1 to the free
hints and changes nothing else, the two time tags change nothing; no tag changes the timer,
and on any tag containing "gem" the amount is the integer parsed from its first word. -/
theorem handleWheelReward_configured (s : GameController) :
    segments = ["2 gems".toList, "-5 seconds".toList, "3 gems".toList, "Free Hint".toList,
      "1 gem".toList, "-10 seconds".toList, "2 gems".toList, "4 gems".toList] ∧
    handleWheelReward s "2 gems".toList
      = { s with playerGems := { gems := s.playerGems.gems + 2 } } ∧
    handleWheelReward s "3 gems".toList
      = { s with playerGems := { gems := s.playerGems.gems + 3 } } ∧
    handleWheelReward s "1 gem".toList
      = { s with playerGems := { gems := s.playerGems.gems + 1 } } ∧
    handleWheelReward s "4 gems".toList
      = { s with playerGems := { gems := s.playerGems.gems + 4 } } ∧
    handleWheelReward s "Free Hint".toList
      = { s with freeHintsCount := s.freeHintsCount + 1 } ∧
    handleWheelReward s "-5 seconds".toList = s ∧
    handleWheelReward s "-10 seconds".toList = s ∧
    (∀ tag : QString, (handleWheelReward s tag).remainingTime = s.remainingTime) ∧
    (∀ tag : QString, QString.contains tag "gem".toList = true →
      handleWheelReward s tag =
        { s with playerGems :=
          { gems := s.playerGems.gems + QString.toInt (QString.splitFirst tag) } }) := by
  refine ⟨rfl, ?_, ?_, ?_, ?_, ?_, ?_, ?_, ?_, ?_⟩
  · exact handleWheelReward_gemTag s _ 2 (by decide) (by decide)
  · exact handleWheelReward_gemTag s _ 3 (by decide) (by decide)
  · exact handleWheelReward_gemTag s _ 1 (by decide) (by decide)
  · exact handleWheelReward_gemTag s _ 4 (by decide) (by decide)
  · exact handleWheelReward_freeHint s
  · exact handleWheelReward_noGem s _ (by decide) (by decide)
  · exact handleWheelReward_noGem s _ (by decide) (by decide)
  · intro tag; exact (handleWheelReward_frame s tag).2.2.1
  · intro tag hc; exact handleWheelReward_gemTag s tag _ hc rfl

/-- C16 (amended): in a state with `gameActive` false a tick is not a no-op: with time left
it decrements `remainingTime` by 1 and leaves every other field unchanged, with no time
left it reveals the phrase, stops the timer and raises "Time's Up!"; `updateTimer` never
reads `gameActive`. -/
theorem updateTimer_inactive (s : GameController) (hact : s.gameActive = false) :
    (0 < s.remainingTime →
      updateTimer s = ({ s with remainingTime := s.remainingTime - 1 }, []) ∧
      (updateTimer s).1.phraseHandler = s.phraseHandler ∧
      (updateTimer s).1.gameActive = false) ∧
    (s.remainingTime ≤ 0 →
      updateTimer s =
        (updateDisplayedPhrase
          { s with timerActive := false, phraseHandler := s.phraseHandler.revealPhrase },
         [Event.question "Time's Up!" "You ran out of time! Do you want to start a new game?"])) ∧
    (∀ b : Bool, updateTimer { s with gameActive := b } =
      ({ (updateTimer s).1 with gameActive := b }, (updateTimer s).2)) := by
  refine ⟨?_, ?_, ?_⟩
  · intro h
    rw [updateTimer_of_pos s h]
    exact ⟨rfl, rfl, hact⟩
  · intro h
    exact updateTimer_of_nonpos s h
  · intro b
    by_cases h : 0 < s.remainingTime
    · rw [updateTimer_of_pos s h, updateTimer_of_pos _ (by exact h)]
    · have h2 : s.remainingTime ≤ 0 := not_lt.mp h
      rw [updateTimer_of_nonpos s h2, updateTimer_of_nonpos _ (by exact h2)]
      rfl

theorem vowelSelected_wrongLength [QtText] (u : GameController) (guess : QString)
    (h : guess.length ≠ 1) :
    vowelSelected u guess = (u, [Event.warning "Invalid Input" "Enter a single vowel." true]) := by
  unfold vowelSelected
  have : (decide (guess.length ≠ 1)) = true := by simpa using h
  simp only [this, Bool.or_true, Bool.true_or, if_true, showWarningAndRetry]

theorem vowelSelected_notLetter [QtText] (u : GameController) (c : Char)
    (h : QChar.isLetter c = false) :
    vowelSelected u [c] = (u, [Event.warning "Invalid Input" "Enter a single vowel." true]) := by
  unfold vowelSelected
  simp only [List.getD_cons_zero, h, Bool.not_false, Bool.or_true, if_true, showWarningAndRetry]

theorem vowelSelected_notVowel [QtText] (u : GameController) (c : Char)
    (hl : QChar.isLetter c = true) (hv : QChar.toUpper c ∉ "AEIOU".toList) :
    vowelSelected u [c] = (u, [Event.warning "Invalid Input" "That's not a vowel." true]) := by
  have hv2 : ("AEIOU".toList.contains (QChar.toUpper c)) = false := by
    rw [Bool.eq_false_iff]; intro h; exact hv (by simpa using h)
  unfold vowelSelected
  simp only [List.isEmpty_cons, List.length_singleton, ne_eq, not_true_eq_false, decide_False,
    List.getD_cons_zero, hl, Bool.not_true, Bool.or_self, Bool.false_eq_true, if_false, hv2,
    Bool.not_false, if_true, showWarningAndRetry]

theorem vowelSelected_alreadyGuessed [QtText] (u : GameController) (c : Char)
    (hl : QChar.isLetter c = true) (hv : QChar.toUpper c ∈ "AEIOU".toList)
    (hg : QChar.toUpper c ∈ u.guessedLetters) :
    vowelSelected u [c] =
      (u, [Event.warning "Already Guessed" "This letter was already guessed." true]) := by
  have hv2 : ("AEIOU".toList.contains (QChar.toUpper c)) = true := by simpa using hv
  have hg2 : (u.guessedLetters.contains (QChar.toUpper c)) = true := by simpa using hg
  unfold vowelSelected
  simp only [List.isEmpty_cons, List.length_singleton, ne_eq, not_true_eq_false, decide_False,
    List.getD_cons_zero, hl, Bool.not_true, Bool.or_self, Bool.false_eq_true, if_false, hv2,
    hg2, if_true, showWarningAndRetry]

theorem vowelSelected_accepted [QtText] (u : GameController) (c : Char)
    (hl : QChar.isLetter c = true) (hv : QChar.toUpper c ∈ "AEIOU".toList)
    (hg : QChar.toUpper c ∉ u.guessedLetters) :
    rejected (vowelSelected u [c]) = false := by
  have hv2 : ("AEIOU".toList.contains (QChar.toUpper c)) = true := by simpa using hv
  have hg2 : (u.guessedLetters.contains (QChar.toUpper c)) = false := by
    rw [Bool.eq_false_iff]; intro h; exact hg (by simpa using h)
  unfold vowelSelected
  simp only [List.isEmpty_cons, List.length_singleton, ne_eq, not_true_eq_false, decide_False,
    List.getD_cons_zero, hl, Bool.not_true, Bool.or_self, Bool.false_eq_true, if_false, hv2,
    hg2, showWarningAndRetry]
  split_ifs <;> rfl

theorem vowelSelected_rejected_iff [QtText] (u : GameController) (guess : QString) :
    rejected (vowelSelected u guess) = true ↔
      (guess.length ≠ 1 ∨ ∃ c, guess = [c] ∧
        (QChar.isLetter c = false ∨ QChar.toUpper c ∉ "AEIOU".toList ∨
          QChar.toUpper c ∈ u.guessedLetters)) := by
  constructor
  · intro hrej
    by_contra hno
    push_neg at hno
    obtain ⟨hlen, hall⟩ := hno
    obtain ⟨c, hc⟩ := List.length_eq_one.mp hlen
    obtain ⟨h1, h2, h3⟩ := hall c hc
    subst hc
    rw [vowelSelected_accepted u c (by simpa using h1) h2 h3] at hrej
    exact Bool.false_ne_true hrej
  · rintro (hlen | ⟨c, rfl, h1 | h2 | h3⟩)
    · rw [vowelSelected_wrongLength u guess hlen]; rfl
    · rw [vowelSelected_notLetter u c h1]; rfl
    · by_cases hl : QChar.isLetter c = true
      · rw [vowelSelected_notVowel u c hl h2]; rfl
      · rw [vowelSelected_notLetter u c (by simpa using hl)]; rfl
    · by_cases hl : QChar.isLetter c = true
      · by_cases hv : QChar.toUpper c ∈ "AEIOU".toList
        · rw [vowelSelected_alreadyGuessed u c hl hv h3]; rfl
        · rw [vowelSelected_notVowel u c hl hv]; rfl
      · rw [vowelSelected_notLetter u c (by simpa using hl)]; rfl

theorem vowelSelected_rejected_state [QtText] (u : GameController) (guess : QString)
    (h : rejected (vowelSelected u guess) = true) : (vowelSelected u guess).1 = u := by
  unfold vowelSelected showWarningAndRetry updateDisplayedPhrase at h ⊢
  simp only at h ⊢
  split_ifs at h ⊢ <;> first | rfl | exact absurd (show false = true from h) Bool.false_ne_true

theorem vowelEntries_gems [QtText] (u : GameController) (entries : List QString) :
    (vowelEntries u entries).playerGems = u.playerGems := by
  induction entries generalizing u with
  | nil => rfl
  | cons e rest ih =>
    show (vowelEntries (vowelSelected u e).1 rest).playerGems = u.playerGems
    rw [ih, (vowelSelected_frame u e).2.2.2.1]

/-- C19: with `g >= 3` gems, `buyVowel` debits 3 gems once, when the dialog opens and before
any entry is read; whatever entries follow, the balance stays `g - 3`; an entry is rejected
iff it has the wrong length, is not a letter, is not a vowel or was already guessed, and a
rejected entry leaves the whole state, the balance included, as it was. -/
theorem buyVowel_charges_once [QtText] (s : GameController) (h3 : 3 ≤ s.playerGems.gems)
    (entries : List QString) :
    buyVowel s =
      ({ s with gameActive := true, playerGems := { gems := s.playerGems.gems - 3 } },
       [Event.vowelDialog]) ∧
    (vowelEntries (buyVowel s).1 entries).playerGems.gems = s.playerGems.gems - 3 ∧
    (∀ (u : GameController) (guess : QString),
      (rejected (vowelSelected u guess) = true ↔
        (guess.length ≠ 1 ∨ ∃ c, guess = [c] ∧
          (QChar.isLetter c = false ∨ QChar.toUpper c ∉ "AEIOU".toList ∨
            QChar.toUpper c ∈ u.guessedLetters))) ∧
      (rejected (vowelSelected u guess) = true → (vowelSelected u guess).1 = u) ∧
      (vowelSelected u guess).1.playerGems = u.playerGems) := by
  have e : buyVowel s =
      ({ s with gameActive := true, playerGems := { gems := s.playerGems.gems - 3 } },
       [Event.vowelDialog]) := by
    unfold buyVowel
    have h2 : ¬ s.playerGems.gems < 3 := not_lt.mpr h3
    simp only [PlayerGems.getGems, h2, if_false, PlayerGems.spendGems, ge_iff_le, h3, if_true]
  refine ⟨e, ?_, ?_⟩
  · rw [vowelEntries_gems, e]
  · intro u guess
    exact ⟨vowelSelected_rejected_iff u guess, vowelSelected_rejected_state u guess,
      (vowelSelected_frame u guess).2.2.2.1⟩

end GameController

/-- C16 (counterexample): on `catRound` made inactive, a tick takes the timer from 3 to 2. -/
theorem tick_while_inactive_decrements :
    ({ catRound with gameActive := false } : GameController).gameActive = false ∧
    (GameController.updateTimer { catRound with gameActive := false }).1.remainingTime = 2 ∧
    (GameController.updateTimer { catRound with gameActive := false }).1
      ≠ { catRound with gameActive := false } := by
  decide

/-- C16 (witness): `catRound` made inactive. -/
theorem updateTimer_inactive_witness :
    GameController.updateTimer { catRound with gameActive := false }
      = ({ catRound with gameActive := false, remainingTime := 2 }, []) :=
  ((GameController.updateTimer_inactive { catRound with gameActive := false } rfl).1
    (by decide)).1

/-- C17: on `lastVowelRound` (phrase `CAT`, only `A` hidden, 3 gems), buying the vowel `a`
completes the phrase but only shows the warning "You Win!": the timer stays active and the
next tick counts down, whereas the completing consonant `t` on `lastConsonantRound` goes
through `endGame`, which stops the timer and asks the end-of-game question. -/
theorem buy_last_vowel_does_not_end_round :
    lastVowelRound.playerGems.gems = 3 ∧
    lastVowelRound.phraseHandler.currentLetters = "C_T".toList ∧
    (GameController.buyVowel lastVowelRound).2 = [Event.vowelDialog] ∧
    (GameController.vowelSelected (GameController.buyVowel lastVowelRound).1 ['a']).1.phraseHandler.isComplete
      = true ∧
    (GameController.vowelSelected (GameController.buyVowel lastVowelRound).1 ['a']).2
      = [Event.warning "You Win!" "You guessed the full phrase!" false] ∧
    (GameController.vowelSelected (GameController.buyVowel lastVowelRound).1 ['a']).1.timerActive
      = true ∧
    (GameController.updateTimer
      (GameController.vowelSelected (GameController.buyVowel lastVowelRound).1 ['a']).1)
      = ({ (GameController.vowelSelected (GameController.buyVowel lastVowelRound).1 ['a']).1
            with remainingTime := 59 }, []) ∧
    (GameController.letterSelected lastConsonantRound "2 gems".toList ['t']).1.phraseHandler.isComplete
      = true ∧
    (GameController.letterSelected lastConsonantRound "2 gems".toList ['t']).2
      = [Event.question "You Win!" "You guessed the full phrase!"] ∧
    (GameController.letterSelected lastConsonantRound "2 gems".toList ['t']).1.timerActive
      = false := by
  decide

/-- C11 (witness): a new game on `catPhrase` followed by a tick, a missed guess on
"-10 seconds", a wrong solution, a hint request and one more tick. -/
theorem remainingTime_nonneg_witness :
    (runStates (GameController.startNewGame catRound catPhrase)
        [Op.tick, Op.letter "-10 seconds".toList ['z'], Op.solvePhrase (some "dog".toList),
         Op.buyHint true, Op.tick]).map (fun t => t.remainingTime)
      = [119, 109, 104, 104, 103] ∧
    (runStates (GameController.startNewGame catRound catPhrase)
        [Op.tick, Op.letter "-10 seconds".toList ['z'], Op.solvePhrase (some "dog".toList),
         Op.buyHint true, Op.tick]).all (fun t => decide (0 ≤ t.remainingTime)) = true :=
  ⟨by decide,
   List.all_eq_true.mpr (fun t ht => decide_eq_true
     ((remainingTime_nonneg (GameController.startNewGame catRound catPhrase) (by decide) _).1
       t ht))⟩

/-- C12 (witness): a new game on `catPhrase` followed by two rewarded guesses, a vowel
purchase and a hint request. -/
theorem gems_nonneg_witness :
    (runStates (GameController.startNewGame catRound catPhrase)
        [Op.letter "3 gems".toList ['c'], Op.letter "4 gems".toList ['t'], Op.buyVowel,
         Op.vowel ['e'], Op.buyHint false]).map (fun t => t.playerGems.gems)
      = [3, 7, 4, 4, 4] ∧
    (runStates (GameController.startNewGame catRound catPhrase)
        [Op.letter "3 gems".toList ['c'], Op.letter "4 gems".toList ['t'], Op.buyVowel,
         Op.vowel ['e'], Op.buyHint false]).all (fun t => decide (0 ≤ t.playerGems.gems))
      = true :=
  ⟨by decide,
   List.all_eq_true.mpr (fun t ht => decide_eq_true
     ((gems_nonneg (GameController.startNewGame catRound catPhrase) (by decide) _
       (by decide)).1 t ht))⟩

/-- C19 (witness): on `lastVowelRound`, which has 3 gems, four rejected entries and then
the vowel. -/
theorem buyVowel_charges_once_witness :
    (vowelEntries (GameController.buyVowel lastVowelRound).1
      ["ab".toList, ['1'], ['b'], [], ['a']]).playerGems.gems = 0 :=
  (GameController.buyVowel_charges_once lastVowelRound (by decide) _).2.1

end SpinSolve
